import Mathlib

/-!
# TimeOctomap: a rolling window of spatial snapshots

A shallow embedding of `opencog/timeoctomap/TimeOctomap.cc`.

* Time points and durations are 64-bit signed tick counts
  (`std::chrono::system_clock`), embedded as `Int`; the one place where the code does
  arithmetic on them, `curr_time += time_res`, wraps around explicitly (`wrap64`).
* The mutexes and the background stepper thread are not embedded: every public
  operation runs under the single lock `mtx`, so an execution is a sequence of
  operations, each applied atomically to the state.
* Output parameters (`time_pt& result`) are embedded as a value passed in and a
  value returned next to the success flag.
* Values of type `double` are embedded as rational numbers, without rounding; the
  numeric routines whose code is not at hand (`sqrt`, `atan2`, `rot2d`, `ang_vec` and
  the angle thresholds) are parameters of the geometric queries.
-/

namespace opencog

/-- Entity identifier: `none` is the undefined handle, `some n` a defined one. -/
abbrev Handle := Option Nat

/-- The distinguished undefined handle (`Handle()` and `UndefinedHandle` in the source). -/
def UndefinedHandle : Handle := none

/-- A point in time, in clock ticks: a 64-bit signed count, carried in an `Int`. -/
abbrev time_pt := Int

/-- A duration, in clock ticks: a 64-bit signed count, carried in an `Int`. -/
abbrev duration_c := Int

/-- The value a 64-bit signed tick count takes for the integer `v`: `v` itself when it
lies between -2^63 and 2^63 - 1, and the two's-complement wrap-around otherwise. -/
def wrap64 (v : Int) : Int :=
  (v + 9223372036854775808) % 18446744073709551616 - 9223372036854775808

/-- A coordinate of the map, as the key of the cell it falls in (in units of the
map resolution, one integer per axis). -/
structure point3d where
  x : Int
  y : Int
  z : Int
deriving DecidableEq, Repr

/-- One node of the volumetric store: where it is and the payload attached to it. -/
structure AtomOcTreeNode where
  coord : point3d
  data : Handle
deriving DecidableEq, Repr

/-- Modelled from the spec: the point-indexed volumetric store `AtomOcTree`, whose
declaration is not part of the given sources. Following section 6 of the spec it is a
black box holding the occupied cells as (coordinate, payload) pairs, with the operations
update a leaf with an occupancy flag, attach a payload, exact-coordinate query, full
traversal and delete a leaf. -/
structure AtomOcTree where
  nodes : List AtomOcTreeNode
deriving DecidableEq, Repr

namespace AtomOcTree

/-- Modelled from the spec: exact-coordinate point query (`search`), the node at
`location` or nothing. -/
def search (tree : AtomOcTree) (location : point3d) : Option AtomOcTreeNode :=
  tree.nodes.find? (fun n => decide (n.coord = location))

/-- Modelled from the spec: `updateNode(location, occupied)`, insert or update a leaf
at a coordinate with an occupancy flag. With the flag set the cell exists afterwards
(created with the undefined payload if absent); with the flag cleared the cell is
emptied, whatever its occupant (spec 4.1, `clear_at`). -/
def updateNode (tree : AtomOcTree) (location : point3d) (occupied : Bool) : AtomOcTree :=
  if occupied then
    if (tree.search location).isSome then tree
    else { nodes := tree.nodes ++ [{ coord := location, data := UndefinedHandle }] }
  else { nodes := tree.nodes.filter (fun n => !decide (n.coord = location)) }

/-- Modelled from the spec: `setNodeData(location, data)`, attach or replace the
payload of the leaf at `location`; nothing happens when there is no such leaf. -/
def setNodeData (tree : AtomOcTree) (location : point3d) (ato : Handle) : AtomOcTree :=
  { nodes := tree.nodes.map
      (fun n => if n.coord = location then { n with data := ato } else n) }

/-- Modelled from the spec: `deleteNode(location)`, delete the leaf at `location`. -/
def deleteNode (tree : AtomOcTree) (location : point3d) : AtomOcTree :=
  { nodes := tree.nodes.filter (fun n => !decide (n.coord = location)) }

/-- Modelled from the spec: the full traversal `begin_tree() .. end_tree()`, yielding
every cell with its payload. -/
def begin_tree (tree : AtomOcTree) : List AtomOcTreeNode := tree.nodes

/-- Modelled from the spec: the traversal `begin() .. end()` used by a range-based
`for` over the store; the same full traversal of the cells. -/
def leaves (tree : AtomOcTree) : List AtomOcTreeNode := tree.nodes

end AtomOcTree

/-- One time instant: its timestamp, its length and its occupancy map. -/
structure TimeSlice where
  t : time_pt
  duration : duration_c
  map_tree : AtomOcTree
deriving DecidableEq, Repr

namespace TimeSlice

/-- The constructor `TimeSlice(tp, d)`: an empty map at time `tp`. -/
def create (tp : time_pt) (d : duration_c) : TimeSlice :=
  { t := tp, duration := d, map_tree := { nodes := [] } }

/-- Modelled from the spec: `TimeSlice::operator==(time_pt)`, declared in the header
that is not part of the given sources; spec 4.2 makes it exact equality of the
timestamp. -/
def matches_time (tu : TimeSlice) (tp : time_pt) : Bool := decide (tu.t = tp)

/-- `TimeSlice::insert_atom`. -/
def insert_atom (tu : TimeSlice) (location : point3d) (ato : Handle) : TimeSlice :=
  let tree1 := tu.map_tree.updateNode location true
  { tu with map_tree := tree1.setNodeData location ato }

/-- `TimeSlice::remove_atom`: every node carrying `ato` is noted in `pl` and has its
payload reset; then the nodes at the noted coordinates are deleted. -/
def remove_atom (tu : TimeSlice) (ato : Handle) : TimeSlice :=
  let pl : List point3d :=
    (tu.map_tree.begin_tree.filter (fun n => n.data == ato)).map (fun n => n.coord)
  let tree1 : AtomOcTree :=
    { nodes := tu.map_tree.nodes.map
        (fun n => if n.data == ato then { n with data := UndefinedHandle } else n) }
  { tu with map_tree := pl.foldl (fun tree p => tree.deleteNode p) tree1 }

/-- `TimeSlice::remove_atoms_at_location`. -/
def remove_atoms_at_location (tu : TimeSlice) (location : point3d) : TimeSlice :=
  { tu with map_tree := tu.map_tree.updateNode location false }

/-- `TimeSlice::get_atom_at_location`. -/
def get_atom_at_location (tu : TimeSlice) (location : point3d) : Handle :=
  match tu.map_tree.search location with
  | none => UndefinedHandle
  | some result => result.data

/-- `TimeSlice::get_locations`. -/
def get_locations (tu : TimeSlice) (ato : Handle) : List point3d :=
  (tu.map_tree.begin_tree.filter (fun n => n.data == ato)).map (fun n => n.coord)

end TimeSlice

/-- Modelled from the spec: the fixed-capacity ring buffer holding the slices
(`boost::circular_buffer`, declared in the header that is not part of the given
sources): an ordered sequence, oldest first, with a capacity set at construction. -/
structure circular_buffer (α : Type) where
  capacity : Nat
  elems : List α
deriving DecidableEq, Repr

namespace circular_buffer

/-- Number of elements held. -/
def size {α : Type} (cb : circular_buffer α) : Nat := cb.elems.length

/-- Modelled from the spec: `push_back`, append at the end; when the buffer is at
capacity the oldest element is dropped (FIFO). A buffer of capacity zero stays empty. -/
def push_back {α : Type} (cb : circular_buffer α) (x : α) : circular_buffer α :=
  if cb.capacity = 0 then cb
  else if cb.size < cb.capacity then { cb with elems := cb.elems ++ [x] }
  else { cb with elems := cb.elems.tail ++ [x] }

end circular_buffer

/-- A value of type `double`, embedded as a rational number; rounding is not embedded. -/
abbrev double := Rat

/-- A `point3d` used as a free vector or as a triple of codes, with `double` components. -/
structure vector3 where
  x : double
  y : double
  z : double
deriving DecidableEq

/-- Componentwise difference of two coordinates (`operator-` of `point3d`). -/
def point3d.sub (a b : point3d) : point3d :=
  { x := a.x - b.x, y := a.y - b.y, z := a.z - b.z }

/-- A coordinate read as a vector of `double`s. -/
def point3d.toVector (a : point3d) : vector3 :=
  { x := (a.x : Rat), y := (a.y : Rat), z := (a.z : Rat) }

/-- A coordinate in metres: the key of the cell on each axis times the map resolution.
The offset of the cell centre is the same for every cell and cancels in differences. -/
def point3d.toMetres (a : point3d) (map_res : double) : vector3 :=
  { x := (a.x : Rat) * map_res, y := (a.y : Rat) * map_res, z := (a.z : Rat) * map_res }

/-- Componentwise difference of two vectors (`operator-` of `point3d`). -/
def vector3.sub (a b : vector3) : vector3 :=
  { x := a.x - b.x, y := a.y - b.y, z := a.z - b.z }

/-- Modelled from the spec: the helper `sqr` of the utility headers, which are not
part of the given sources; the square that the Euclidean distance of spec 4.5 takes. -/
def sqr (v : double) : double := v * v

/-- The numeric routines and constants the geometric queries use and whose code is
not part of the given sources (`sqrt` and `atan2` of the C library, `rot2d`, `ang_vec`
and the two angle thresholds of the header), taken as parameters. `rot2d x y th`
returns the pair it writes to its two output parameters. -/
structure Numerics where
  sqrt : double → double
  atan2 : double → double → double
  rot2d : double → double → double → double × double
  ang_vec : point3d → point3d → double
  TOUCH_ANGLE : double
  NEAR_ANGLE : double

/-- The index: resolutions, the window of slices, the stepper flag and the current time. -/
structure TimeOctomap where
  map_res : Rat
  time_res : duration_c
  time_circle : circular_buffer TimeSlice
  auto_step : Bool
  curr_time : time_pt
deriving DecidableEq

namespace TimeOctomap

/-- The constructor `TimeOctomap(num_time_units, map_res_meters, time_resolution)`;
`now` is the reading of the system clock. The call `setResolution(map_res)` on the
fresh store fixes the size of its cells and does not show at the level of cell keys. -/
def construct (num_time_units : Nat) (map_res_meters : Rat)
    (time_resolution : duration_c) (now : time_pt) : TimeOctomap :=
  let tu := TimeSlice.create now time_resolution
  { map_res := map_res_meters
    time_res := time_resolution
    time_circle := ({ capacity := num_time_units, elems := [] } :
      circular_buffer TimeSlice).push_back tu
    auto_step := false
    curr_time := now }

/-- `TimeOctomap::step_time_unit`; the sum `curr_time += time_res` is taken in 64-bit
tick arithmetic. -/
def step_time_unit (m : TimeOctomap) : TimeOctomap :=
  let curr_time1 := wrap64 (m.curr_time + m.time_res)
  let tu := TimeSlice.create curr_time1 m.time_res
  { m with curr_time := curr_time1, time_circle := m.time_circle.push_back tu }

/-- `TimeOctomap::auto_step_time`: set the stepper flag. Starting and joining the
stepper thread is not embedded; what the thread does to the index is a
`step_time_unit` every so often. -/
def auto_step_time (m : TimeOctomap) (astep : Bool) : TimeOctomap :=
  if m.auto_step = astep then m else { m with auto_step := astep }

/-- The index computed by `get_current_timeslice`. -/
def current_index (m : TimeOctomap) : Int :=
  let i : Int := (m.time_circle.capacity : Int) - 1
  if m.time_circle.size < m.time_circle.capacity then (m.time_circle.size : Int) - 1
  else i

/-- `TimeOctomap::get_current_timeslice`; `none` when the index is outside the
buffer, where the source has no defined behaviour. -/
def get_current_timeslice (m : TimeOctomap) : Option TimeSlice :=
  if 0 ≤ m.current_index then m.time_circle.elems[m.current_index.toNat]? else none

/-- Write `f tu` over the slice that `get_current_timeslice` refers to. -/
def update_current (m : TimeOctomap) (f : TimeSlice → TimeSlice) : TimeOctomap :=
  match m.get_current_timeslice with
  | none => m
  | some tu =>
    { m with time_circle :=
        { m.time_circle with elems := m.time_circle.elems.set m.current_index.toNat (f tu) } }

/-- `TimeOctomap::find`: the first slice of the buffer that compares equal to `time_p`. -/
def find (m : TimeOctomap) (time_p : time_pt) : Option TimeSlice :=
  m.time_circle.elems.find? (fun tu => tu.matches_time time_p)

/-- Write `f` over the first slice that satisfies `p`, the slice `find` points to. -/
def update_first (p : TimeSlice → Bool) (f : TimeSlice → TimeSlice) :
    List TimeSlice → List TimeSlice
  | [] => []
  | tu :: rest => if p tu then f tu :: rest else tu :: update_first p f rest

/-- Write `f` over the slice found for `time_p`; nothing happens when `find` fails. -/
def update_found (m : TimeOctomap) (time_p : time_pt) (f : TimeSlice → TimeSlice) :
    TimeOctomap :=
  { m with time_circle :=
      { m.time_circle with
        elems := update_first (fun tu => tu.matches_time time_p) f m.time_circle.elems } }

/-- `TimeOctomap::insert_atom`. -/
def insert_atom (m : TimeOctomap) (location : point3d) (ato : Handle) : TimeOctomap :=
  m.update_current (fun tu => tu.insert_atom location ato)

/-- `TimeOctomap::remove_atoms_at_location`. -/
def remove_atoms_at_location (m : TimeOctomap) (location : point3d) : TimeOctomap :=
  m.update_current (fun tu => tu.remove_atoms_at_location location)

/-- `TimeOctomap::remove_atom_at_time_by_location`. -/
def remove_atom_at_time_by_location (m : TimeOctomap) (tp : time_pt)
    (location : point3d) : TimeOctomap :=
  m.update_found tp (fun tu => tu.remove_atoms_at_location location)

/-- `TimeOctomap::get_atom_at_location`. -/
def get_atom_at_location (m : TimeOctomap) (location : point3d) : Handle :=
  match m.get_current_timeslice with
  | none => UndefinedHandle
  | some tu => tu.get_atom_at_location location

/-- `TimeOctomap::get_atom_at_time_by_location`. -/
def get_atom_at_time_by_location (m : TimeOctomap) (time_p : time_pt)
    (location : point3d) : Handle :=
  match m.find time_p with
  | none => UndefinedHandle
  | some tu => tu.get_atom_at_location location

/-- `TimeOctomap::get_times_of_atom_occurence_at_location`. -/
def get_times_of_atom_occurence_at_location (m : TimeOctomap) (location : point3d)
    (ato : Handle) : List time_pt :=
  (m.time_circle.elems.filter
    (fun tu => tu.get_atom_at_location location == ato)).map (fun tu => tu.t)

/-- `TimeOctomap::get_timeline`: one time point for each slice, in buffer order, in
which some node carries `ato`. -/
def get_timeline (m : TimeOctomap) (ato : Handle) : List time_pt :=
  (m.time_circle.elems.filter
    (fun tu => tu.map_tree.leaves.any (fun nod => nod.data == ato))).map (fun tu => tu.t)

/-- The ascending sort `tl.sort()` of a list of time points. -/
def sort (tl : List time_pt) : List time_pt := tl.insertionSort (fun a b => a ≤ b)

/-- `TimeOctomap::get_oldest_time_elapse_atom_observed`; returns the success flag and
the value of `result` afterwards. -/
def get_oldest_time_elapse_atom_observed (m : TimeOctomap) (ato : Handle)
    (from_d : time_pt) (result : time_pt) : Bool × time_pt :=
  let tl := sort (m.get_timeline ato)
  match tl.find? (fun tp => decide (tp ≥ from_d)) with
  | some tp => (true, tp)
  | none => (false, result)

/-- `TimeOctomap::get_last_time_elapse_atom_observed`; returns the success flag and
the value of `result` afterwards. -/
def get_last_time_elapse_atom_observed (m : TimeOctomap) (ato : Handle)
    (from_d : time_pt) (result : time_pt) : Bool × time_pt :=
  let tl := m.get_timeline ato
  if tl.length = 0 then (false, result)
  else
    let tl := sort tl
    match tl.getLast? with
    | none => (false, result)
    | some back =>
      if from_d > back ∧ back ≠ from_d then (false, result)
      else (true, back)

/-- `TimeOctomap::get_last_time_before_elapse_atom_observed`; returns the success
flag and the value of `result` afterwards. -/
def get_last_time_before_elapse_atom_observed (m : TimeOctomap) (ato : Handle)
    (till_d : time_pt) (result : time_pt) : Bool × time_pt :=
  let tl := m.get_timeline ato
  if tl.length = 0 then (false, result)
  else
    let tl := sort tl
    match tl.head? with
    | none => (false, result)
    | some front =>
      if till_d < front then (false, result)
      else
        match tl.find? (fun tp => decide (tp ≤ till_d)) with
        | some tp => (true, tp)
        | none => (false, result)

/-- `TimeOctomap::get_locations_of_atom`. -/
def get_locations_of_atom (m : TimeOctomap) (ato : Handle) : List point3d :=
  match m.get_current_timeslice with
  | none => []
  | some tu => tu.get_locations ato

/-- `TimeOctomap::get_locations_of_atom_at_time`. -/
def get_locations_of_atom_at_time (m : TimeOctomap) (time_p : time_pt)
    (ato : Handle) : List point3d :=
  match m.find time_p with
  | none => []
  | some it => it.get_locations ato

/-- `TimeOctomap::get_oldest_locations`; `tpt` starts out uninitialised in the
source and is only read after a success, so its starting value is immaterial. -/
def get_oldest_locations (m : TimeOctomap) (ato : Handle) (from_d : time_pt) :
    List point3d :=
  let r := m.get_oldest_time_elapse_atom_observed ato from_d 0
  if !r.1 then [] else m.get_locations_of_atom_at_time r.2 ato

/-- `TimeOctomap::get_newest_locations`. -/
def get_newest_locations (m : TimeOctomap) (ato : Handle) (till_d : time_pt) :
    List point3d :=
  let r := m.get_last_time_elapse_atom_observed ato till_d 0
  if !r.1 then [] else m.get_locations_of_atom_at_time r.2 ato

/-- `TimeOctomap::remove_atom_at_current_time`. -/
def remove_atom_at_current_time (m : TimeOctomap) (ato : Handle) : TimeOctomap :=
  m.update_current (fun tu => tu.remove_atom ato)

/-- `TimeOctomap::remove_atom_at_time`. -/
def remove_atom_at_time (m : TimeOctomap) (time_p : time_pt) (ato : Handle) :
    TimeOctomap :=
  m.update_found time_p (fun tu => tu.remove_atom ato)

/-- `TimeOctomap::remove_atom`: remove the atom from every slice. -/
def remove_atom (m : TimeOctomap) (ato : Handle) : TimeOctomap :=
  { m with time_circle :=
      { m.time_circle with elems := m.time_circle.elems.map (fun tu => tu.remove_atom ato) } }

/-- `TimeOctomap::get_a_location`; returns the success flag and the value of
`location` afterwards. -/
def get_a_location (m : TimeOctomap) (time_p : time_pt) (ato_target : Handle)
    (location : point3d) : Bool × point3d :=
  let target_list := m.get_locations_of_atom_at_time time_p ato_target
  if target_list.length < 1 then (false, location)
  else
    match target_list.head? with
    | none => (false, location)
    | some front => (true, front)

/-- One axis of the classification at the end of `get_spatial_relations`: `hi` above
the tolerance band, `lo` below it, 0 inside. -/
def classify_axis (v eps hi lo : double) : double :=
  if v > eps then hi
  else if v < -1 * eps then lo
  else 0

/-- `TimeOctomap::get_spatial_relations`; the locals `v1`, `v2`, `v3` start out as
the zero vector. Positions are taken in metres, the unit of `eps`. -/
def get_spatial_relations (m : TimeOctomap) (fp : Numerics) (time_p : time_pt)
    (ato_obs ato_target ato_ref : Handle) : vector3 :=
  let res : vector3 := { x := -1, y := -1, z := -1 }
  let eps : double := m.map_res * (1 / 10)
  let r1 := m.get_a_location time_p ato_obs ⟨0, 0, 0⟩
  if !r1.1 then res
  else
    let r2 := m.get_a_location time_p ato_target ⟨0, 0, 0⟩
    if !r2.1 then res
    else
      let r3 := m.get_a_location time_p ato_ref ⟨0, 0, 0⟩
      if !r3.1 then res
      else
        let v1 := r1.2.toMetres m.map_res
        let v2 := r2.2.toMetres m.map_res
        let v3 := r3.2.toMetres m.map_res
        let orv := v3.sub v1
        if |orv.x| ≤ eps ∧ |orv.y| ≤ eps ∧ |orv.z| ≤ eps then res
        else
          let otv := v2.sub v1
          let th := fp.atan2 orv.y orv.x
          let c := fp.rot2d orv.x orv.y (-1 * th)
          let orv : vector3 := { x := c.1, y := 0, z := orv.z }
          let d := fp.rot2d otv.x otv.y (-1 * th)
          let otv : vector3 := { x := d.1, y := d.2, z := otv.z }
          let th := fp.atan2 orv.z orv.x
          let c := fp.rot2d orv.x orv.z (-1 * th)
          let orv : vector3 := { x := c.1, y := 0, z := 0 }
          let d := fp.rot2d otv.x otv.z (-1 * th)
          let otv : vector3 := { x := d.1, y := otv.y, z := d.2 }
          let res := otv.sub orv
          { x := classify_axis res.x eps 1 2
            y := classify_axis res.y eps 2 1
            z := classify_axis res.z eps 2 1 }

/-- `TimeOctomap::get_direction_vector`; returns the success flag and the value of
`dir` afterwards. The locals `tarh`, `refh` start out as the zero vector. -/
def get_direction_vector (m : TimeOctomap) (time_p : time_pt)
    (ato_obs ato_target : Handle) (dir : point3d) : Bool × point3d :=
  let rt := m.get_a_location time_p ato_target ⟨0, 0, 0⟩
  if !rt.1 then (false, dir)
  else
    let rr := m.get_a_location time_p ato_obs ⟨0, 0, 0⟩
    if !rr.1 then (false, dir)
    else (true, rt.2.sub rr.2)

/-- `TimeOctomap::get_angular_nearness`: 2 far, 1 near, 0 touching, -1 unknown. -/
def get_angular_nearness (m : TimeOctomap) (fp : Numerics) (time_p : time_pt)
    (ato_obs ato_target ato_ref : Handle) : Int :=
  let r1 := m.get_direction_vector time_p ato_obs ato_target ⟨0, 0, 0⟩
  if !r1.1 then -1
  else
    let r2 := m.get_direction_vector time_p ato_obs ato_ref ⟨0, 0, 0⟩
    if !r2.1 then -1
    else
      let ang := fp.ang_vec r1.2 r2.2
      if ang ≤ fp.TOUCH_ANGLE then 0
      else if ang ≤ fp.NEAR_ANGLE then 1
      else 2

/-- `TimeOctomap::get_distance_between`. -/
def get_distance_between (m : TimeOctomap) (fp : Numerics) (time_p : time_pt)
    (ato_target ato_ref : Handle) : double :=
  let rt := m.get_a_location time_p ato_target ⟨0, 0, 0⟩
  if !rt.1 then -1
  else
    let rr := m.get_a_location time_p ato_ref ⟨0, 0, 0⟩
    if !rr.1 then -1
    else
      let tarh := rt.2.toVector
      let refh := rr.2.toVector
      fp.sqrt (sqr (tarh.x - refh.x) + sqr (tarh.y - refh.y) + sqr (tarh.z - refh.z))

end TimeOctomap

/-- The public operations that change the state of the index. Queries leave the
state as it is; the stepper thread contributes `step_time_unit` operations. -/
inductive Op where
  | step_time_unit
  | insert_atom (location : point3d) (ato : Handle)
  | remove_atoms_at_location (location : point3d)
  | remove_atom_at_time_by_location (tp : time_pt) (location : point3d)
  | remove_atom_at_current_time (ato : Handle)
  | remove_atom_at_time (tp : time_pt) (ato : Handle)
  | remove_atom (ato : Handle)
  | auto_step_time (astep : Bool)
deriving DecidableEq

/-- Apply one operation. -/
def Op.apply (m : TimeOctomap) : Op → TimeOctomap
  | .step_time_unit => m.step_time_unit
  | .insert_atom location ato => m.insert_atom location ato
  | .remove_atoms_at_location location => m.remove_atoms_at_location location
  | .remove_atom_at_time_by_location tp location =>
      m.remove_atom_at_time_by_location tp location
  | .remove_atom_at_current_time ato => m.remove_atom_at_current_time ato
  | .remove_atom_at_time tp ato => m.remove_atom_at_time tp ato
  | .remove_atom ato => m.remove_atom ato
  | .auto_step_time astep => m.auto_step_time astep

/-- Apply a sequence of operations, first to last. -/
def run (m : TimeOctomap) (ops : List Op) : TimeOctomap := ops.foldl Op.apply m

/-- Call `step_time_unit` `k` times. -/
def steps (m : TimeOctomap) : Nat → TimeOctomap
  | 0 => m
  | k + 1 => (steps m k).step_time_unit

/-- The timestamps of the retained slices, in buffer order. -/
def TimeOctomap.timestamps (m : TimeOctomap) : List time_pt :=
  m.time_circle.elems.map (fun tu => tu.t)

/-- The shape of the window for capacity `N` and time resolution `res`: between one
and `N` slices, each timestamp the 64-bit sum of its predecessor and `res`, the last
one at the current time. -/
structure WindowInv (N : Nat) (res : duration_c) (m : TimeOctomap) : Prop where
  cap : m.time_circle.capacity = N
  res_eq : m.time_res = res
  size_pos : 1 ≤ m.time_circle.size
  size_le : m.time_circle.size ≤ N
  chain : List.Chain' (fun a b => b = wrap64 (a + res)) m.timestamps
  last : m.timestamps.getLast? = some m.curr_time

/-- The window of a clock that has not wrapped around: neighbouring timestamps are
exactly `res` apart and the current time is a 64-bit value from below. -/
structure ExactInv (res : duration_c) (m : TimeOctomap) : Prop where
  chain_exact : List.Chain' (fun a b => b = a + res) m.timestamps
  lower : -9223372036854775808 ≤ m.curr_time

/-- Number of `step_time_unit` operations in a run. -/
def count_steps : List Op → Nat
  | [] => 0
  | Op.step_time_unit :: ops => count_steps ops + 1
  | _ :: ops => count_steps ops

/-- The clock started at `now` stays within the 64-bit tick range over `n` steps of
length `res`: no sum `curr_time += time_res` overflows. -/
def clock_fits (now : time_pt) (res : duration_c) (n : Nat) : Prop :=
  -9223372036854775808 ≤ now ∧ now + (n : Int) * res < 9223372036854775808

instance (now : time_pt) (res : duration_c) (n : Nat) : Decidable (clock_fits now res n) := by
  unfold clock_fits
  infer_instance

/-- What an operation that only rewrites occupancy maps leaves alone. -/
structure SameWindow (m m' : TimeOctomap) : Prop where
  ts : m'.timestamps = m.timestamps
  cap : m'.time_circle.capacity = m.time_circle.capacity
  res : m'.time_res = m.time_res
  cur : m'.curr_time = m.curr_time

/-- A sample run: write, step past a capacity of two, remove, step again. -/
def demo_ops : List Op :=
  [Op.insert_atom ⟨0, 0, 0⟩ (some 1), Op.step_time_unit, Op.auto_step_time true,
    Op.step_time_unit, Op.remove_atom (some 1), Op.step_time_unit]

/-- A sample state: capacity 2, resolution 1, clock at 0; entity 1 is written at
(0,0,0) in the slice of time 0 and, after one step, again in the slice of time 1. -/
def seen_twice : TimeOctomap :=
  (((TimeOctomap.construct 2 1 1 0).insert_atom ⟨0, 0, 0⟩ (some 1)).step_time_unit).insert_atom
    ⟨0, 0, 0⟩ (some 1)

/-- A sample state: capacity 3, resolution 1, clock at 0; entity 1 is written at
(0,0,0) in the slice of time 0, its only observation, and time moves on by one step. -/
def seen_once : TimeOctomap :=
  ((TimeOctomap.construct 3 1 1 0).insert_atom ⟨0, 0, 0⟩ (some 1)).step_time_unit

/-- No two cells of the slice sit at the same coordinate. -/
def TimeSlice.cells_distinct (tu : TimeSlice) : Prop :=
  (tu.map_tree.nodes.map (fun n => n.coord)).Nodup

/-- Every slice of the buffer has its cells at distinct coordinates. -/
def CellsInv (m : TimeOctomap) : Prop :=
  ∀ tu ∈ m.time_circle.elems, tu.cells_distinct

/-- A sample state: capacity 3, map resolution 1, clock at 0; in the one slice entity 1
sits at (1,0,0) and entity 2 at (0,0,0). -/
def two_entities : TimeOctomap :=
  ((TimeOctomap.construct 3 1 1 0).insert_atom ⟨1, 0, 0⟩ (some 1)).insert_atom
    ⟨0, 0, 0⟩ (some 2)

/-- Sample numeric routines for evaluating the geometric queries on small inputs: the
integer square root of the integer part (exact on perfect squares), no rotation, a zero
angle everywhere. -/
def sample_numerics : Numerics :=
  { sqrt := fun v => ((Nat.sqrt ⌊v⌋.toNat : Nat) : Rat)
    atan2 := fun _ _ => 0
    rot2d := fun x y _ => (x, y)
    ang_vec := fun _ _ => 0
    TOUCH_ANGLE := 1 / 10
    NEAR_ANGLE := 1 / 2 }

/-- The function `get_oldest_time_elapse_atom_observed` with its `tl.sort()` removed:
the timeline is scanned in the order `get_timeline` returns it. -/
def TimeOctomap.get_oldest_time_elapse_atom_observed_unsorted (m : TimeOctomap)
    (ato : Handle) (from_d : time_pt) (result : time_pt) : Bool × time_pt :=
  let tl := m.get_timeline ato
  match tl.find? (fun tp => decide (tp ≥ from_d)) with
  | some tp => (true, tp)
  | none => (false, result)

/-- The function `get_last_time_elapse_atom_observed` with its `tl.sort()` removed. -/
def TimeOctomap.get_last_time_elapse_atom_observed_unsorted (m : TimeOctomap)
    (ato : Handle) (from_d : time_pt) (result : time_pt) : Bool × time_pt :=
  let tl := m.get_timeline ato
  if tl.length = 0 then (false, result)
  else
    match tl.getLast? with
    | none => (false, result)
    | some back =>
      if from_d > back ∧ back ≠ from_d then (false, result)
      else (true, back)

/-- The function `get_last_time_before_elapse_atom_observed` with its `tl.sort()`
removed. -/
def TimeOctomap.get_last_time_before_elapse_atom_observed_unsorted (m : TimeOctomap)
    (ato : Handle) (till_d : time_pt) (result : time_pt) : Bool × time_pt :=
  let tl := m.get_timeline ato
  if tl.length = 0 then (false, result)
  else
    match tl.head? with
    | none => (false, result)
    | some front =>
      if till_d < front then (false, result)
      else
        match tl.find? (fun tp => decide (tp ≤ till_d)) with
        | some tp => (true, tp)
        | none => (false, result)

/-- A sample run that wraps a clock of resolution 2^62 around: four steps, then a write
of entity 1 into the current slice. -/
def overflow_ops : List Op :=
  [Op.step_time_unit, Op.step_time_unit, Op.step_time_unit, Op.step_time_unit,
    Op.insert_atom ⟨0, 0, 0⟩ (some 1)]

/-- A sample run with entity 1 written in each of three slices. -/
def wrapped_history_ops : List Op :=
  [Op.insert_atom ⟨0, 0, 0⟩ (some 1), Op.step_time_unit,
    Op.insert_atom ⟨0, 0, 0⟩ (some 1), Op.step_time_unit,
    Op.insert_atom ⟨0, 0, 0⟩ (some 1)]

/-- A sample run on a buffer of capacity 2: entity 1 is written, time steps twice with
a second write in between, so that the first observation is evicted and a later one
added. -/
def history_ops : List Op :=
  [Op.insert_atom ⟨0, 0, 0⟩ (some 1), Op.step_time_unit,
    Op.insert_atom ⟨0, 0, 1⟩ (some 1), Op.step_time_unit,
    Op.insert_atom ⟨0, 0, 2⟩ (some 1)]

end opencog

namespace opencog
open TimeOctomap

/-! ## The volumetric store and a single slice -/

theorem AtomOcTree.search_updateNode_true (tree : AtomOcTree) (p : point3d) :
    ((tree.updateNode p true).search p).isSome = true := by
  unfold AtomOcTree.updateNode
  rw [if_pos rfl]
  split
  · assumption
  · simp [AtomOcTree.search, List.find?_append]

theorem AtomOcTree.search_setNodeData (tree : AtomOcTree) (p : point3d) (e : Handle) :
    (tree.setNodeData p e).search p =
      (tree.search p).map (fun n => { n with data := e }) := by
  unfold AtomOcTree.search AtomOcTree.setNodeData
  induction tree.nodes with
  | nil => simp
  | cons a l ih =>
    by_cases h : a.coord = p
    · simp [h]
    · simp [h, ih]

theorem TimeSlice.get_insert_same (tu : TimeSlice) (p : point3d) (e : Handle) :
    (tu.insert_atom p e).get_atom_at_location p = e := by
  unfold TimeSlice.get_atom_at_location TimeSlice.insert_atom
  simp only [AtomOcTree.search_setNodeData]
  have h := AtomOcTree.search_updateNode_true tu.map_tree p
  cases hs : (tu.map_tree.updateNode p true).search p with
  | none => simp [hs] at h
  | some n => simp

/-! ## The window -/

theorem getLast?_tail_mem {α : Type} (l : List α) (x : α) (h : x ∈ l.tail.getLast?) :
    x ∈ l.getLast? := by
  cases l with
  | nil => simp at h
  | cons a l' =>
    cases l' with
    | nil => simp at h
    | cons b l'' => simpa [List.getLast?_cons_cons] using h

theorem WindowInv.construct (N : Nat) (mr : Rat) (res : duration_c) (now : time_pt)
    (hN : 1 ≤ N) : WindowInv N res (construct N mr res now) := by
  have h0 : N ≠ 0 := by omega
  have hlt : 0 < N := by omega
  constructor <;>
    simp [TimeOctomap.construct, circular_buffer.push_back, circular_buffer.size,
      TimeOctomap.timestamps, TimeSlice.create, h0, hlt]
  omega

theorem timestamps_step (m : TimeOctomap) (h0 : m.time_circle.capacity ≠ 0) :
    m.step_time_unit.timestamps =
      (if m.time_circle.size < m.time_circle.capacity then m.timestamps
        else m.timestamps.tail) ++ [wrap64 (m.curr_time + m.time_res)] := by
  unfold TimeOctomap.step_time_unit TimeOctomap.timestamps circular_buffer.push_back
  by_cases hlt : m.time_circle.size < m.time_circle.capacity
  · simp [h0, hlt, TimeSlice.create]
  · simp [h0, hlt, TimeSlice.create, List.map_tail]

theorem WindowInv.step {N : Nat} {res : duration_c} {m : TimeOctomap}
    (h : WindowInv N res m) : WindowInv N res m.step_time_unit := by
  obtain ⟨hcap, hres, hpos, hle, hchain, hlast⟩ := h
  have h0 : m.time_circle.capacity ≠ 0 := by omega
  have hsz : m.step_time_unit.time_circle.size = m.step_time_unit.timestamps.length := by
    simp [circular_buffer.size, TimeOctomap.timestamps]
  have hsz0 : m.time_circle.size = m.timestamps.length := by
    simp [circular_buffer.size, TimeOctomap.timestamps]
  have hts := timestamps_step m h0
  refine ⟨?_, ?_, ?_, ?_, ?_, ?_⟩
  · simp [TimeOctomap.step_time_unit, circular_buffer.push_back, h0]
    split <;> simpa using hcap
  · simpa [TimeOctomap.step_time_unit] using hres
  · rw [hsz, hts]; simp
  · rw [hsz, hts]
    by_cases hlt : m.time_circle.size < m.time_circle.capacity
    · simp only [hlt, if_true, List.length_append, List.length_singleton]; omega
    · simp only [hlt, if_false, List.length_append, List.length_singleton, List.length_tail]
      omega
  · rw [hts]
    have hc : List.Chain' (fun a b => b = wrap64 (a + res))
        (if m.time_circle.size < m.time_circle.capacity then m.timestamps
          else m.timestamps.tail) := by
      split
      · exact hchain
      · exact hchain.tail
    refine List.Chain'.append hc (List.chain'_singleton _) ?_
    intro x hx y hy
    have hx' : x ∈ m.timestamps.getLast? := by
      by_cases hlt : m.time_circle.size < m.time_circle.capacity
      · simpa [hlt] using hx
      · simp only [hlt, if_false] at hx
        exact getLast?_tail_mem _ _ hx
    rw [hlast] at hx'
    simp only [Option.mem_def, Option.some.injEq] at hx'
    simp only [List.head?_cons, Option.mem_def, Option.some.injEq] at hy
    rw [← hx', ← hy, hres]
  · rw [hts]
    simp [TimeOctomap.step_time_unit]

theorem map_t_set_same (l : List TimeSlice) (i : Nat) (tu tu' : TimeSlice)
    (h : l[i]? = some tu) (ht : tu'.t = tu.t) :
    (l.set i tu').map (fun s => s.t) = l.map (fun s => s.t) := by
  induction l generalizing i with
  | nil => simp
  | cons a l ih =>
    cases i with
    | zero =>
      simp only [List.getElem?_cons_zero, Option.some.injEq] at h
      simp [h, ht]
    | succ j =>
      simp only [List.getElem?_cons_succ] at h
      simp [ih j h]

theorem map_t_update_first (p : TimeSlice → Bool) (f : TimeSlice → TimeSlice)
    (hf : ∀ tu, (f tu).t = tu.t) (l : List TimeSlice) :
    (update_first p f l).map (fun s => s.t) = l.map (fun s => s.t) := by
  induction l with
  | nil => simp [update_first]
  | cons a l ih =>
    unfold update_first
    split
    · simp [hf]
    · simp [ih]

theorem SameWindow.size {m m' : TimeOctomap} (h : SameWindow m m') :
    m'.time_circle.size = m.time_circle.size := by
  have := congrArg List.length h.ts
  simpa [TimeOctomap.timestamps, circular_buffer.size] using this

theorem SameWindow.update_current (m : TimeOctomap) (f : TimeSlice → TimeSlice)
    (hf : ∀ tu, (f tu).t = tu.t) : SameWindow m (m.update_current f) := by
  unfold TimeOctomap.update_current
  cases hc : m.get_current_timeslice with
  | none => exact ⟨rfl, rfl, rfl, rfl⟩
  | some tu =>
    refine ⟨?_, rfl, rfl, rfl⟩
    unfold TimeOctomap.get_current_timeslice at hc
    split at hc
    · exact map_t_set_same _ _ _ _ hc (hf tu)
    · cases hc

theorem SameWindow.update_found (m : TimeOctomap) (tp : time_pt) (f : TimeSlice → TimeSlice)
    (hf : ∀ tu, (f tu).t = tu.t) : SameWindow m (m.update_found tp f) :=
  ⟨map_t_update_first _ f hf _, rfl, rfl, rfl⟩

theorem SameWindow.remove_atom (m : TimeOctomap) (ato : Handle) :
    SameWindow m (m.remove_atom ato) := by
  refine ⟨?_, rfl, rfl, rfl⟩
  simp [TimeOctomap.remove_atom, TimeOctomap.timestamps, TimeSlice.remove_atom]

theorem SameWindow.of_apply (m : TimeOctomap) (op : Op) (h : op ≠ Op.step_time_unit) :
    SameWindow m (op.apply m) := by
  cases op with
  | step_time_unit => exact absurd rfl h
  | insert_atom p e => exact SameWindow.update_current m _ (fun _ => rfl)
  | remove_atoms_at_location p => exact SameWindow.update_current m _ (fun _ => rfl)
  | remove_atom_at_time_by_location tp p => exact SameWindow.update_found m tp _ (fun _ => rfl)
  | remove_atom_at_current_time e => exact SameWindow.update_current m _ (fun _ => rfl)
  | remove_atom_at_time tp e => exact SameWindow.update_found m tp _ (fun _ => rfl)
  | remove_atom e => exact SameWindow.remove_atom m e
  | auto_step_time astep =>
    show SameWindow m (m.auto_step_time astep)
    unfold TimeOctomap.auto_step_time
    split
    · exact ⟨rfl, rfl, rfl, rfl⟩
    · exact ⟨rfl, rfl, rfl, rfl⟩

theorem WindowInv.of_same {N : Nat} {res : duration_c} {m m' : TimeOctomap}
    (h : WindowInv N res m) (hs : SameWindow m m') : WindowInv N res m' := by
  refine ⟨?_, ?_, ?_, ?_, ?_, ?_⟩
  · rw [hs.cap]; exact h.cap
  · rw [hs.res]; exact h.res_eq
  · rw [hs.size]; exact h.size_pos
  · rw [hs.size]; exact h.size_le
  · rw [hs.ts]; exact h.chain
  · rw [hs.ts, hs.cur]; exact h.last

theorem WindowInv.apply_op {N : Nat} {res : duration_c} {m : TimeOctomap}
    (h : WindowInv N res m) (op : Op) : WindowInv N res (op.apply m) := by
  by_cases hop : op = Op.step_time_unit
  · subst hop; exact h.step
  · exact h.of_same (SameWindow.of_apply m op hop)

theorem WindowInv.run {N : Nat} {res : duration_c} (ops : List Op) {m : TimeOctomap}
    (h : WindowInv N res m) : WindowInv N res (run m ops) := by
  induction ops generalizing m with
  | nil => exact h
  | cons op ops ih => exact ih (h.apply_op op)

theorem WindowInv.steps {N : Nat} {res : duration_c} (k : Nat) {m : TimeOctomap}
    (h : WindowInv N res m) : WindowInv N res (steps m k) := by
  induction k with
  | zero => exact h
  | succ k ih => exact ih.step

theorem WindowInv.current_index_eq {N : Nat} {res : duration_c} {m : TimeOctomap}
    (h : WindowInv N res m) : m.current_index = (m.time_circle.size : Int) - 1 := by
  unfold TimeOctomap.current_index
  have h1 := h.cap
  have h2 := h.size_le
  split
  · rfl
  · have : m.time_circle.size = m.time_circle.capacity := by omega
    rw [this]

theorem WindowInv.current_eq_getLast {N : Nat} {res : duration_c} {m : TimeOctomap}
    (h : WindowInv N res m) :
    m.get_current_timeslice = m.time_circle.elems.getLast? := by
  unfold TimeOctomap.get_current_timeslice
  rw [h.current_index_eq]
  have hp := h.size_pos
  have h0 : (0 : Int) ≤ (m.time_circle.size : Int) - 1 := by omega
  rw [if_pos h0, List.getLast?_eq_getElem?]
  have : ((m.time_circle.size : Int) - 1).toNat = m.time_circle.elems.length - 1 := by
    unfold circular_buffer.size at *
    omega
  rw [this]

theorem WindowInv.current_isSome {N : Nat} {res : duration_c} {m : TimeOctomap}
    (h : WindowInv N res m) : ∃ tu, m.get_current_timeslice = some tu := by
  rw [h.current_eq_getLast]
  have hp := h.size_pos
  cases hl : m.time_circle.elems with
  | nil => simp [circular_buffer.size, hl] at hp
  | cons a l => exact ⟨(a :: l).getLast (by simp), List.getLast?_eq_getLast _ _⟩

theorem get_current_update_current (m : TimeOctomap) (f : TimeSlice → TimeSlice)
    (tu : TimeSlice) (h : m.get_current_timeslice = some tu) :
    (m.update_current f).get_current_timeslice = some (f tu) := by
  have hidx : (m.update_current f).current_index = m.current_index := by
    unfold TimeOctomap.update_current
    rw [h]
    simp [TimeOctomap.current_index, circular_buffer.size]
  unfold TimeOctomap.get_current_timeslice at h ⊢
  rw [hidx]
  split at h
  · rename_i hpos
    rw [if_pos hpos]
    have hlt : m.current_index.toNat < m.time_circle.elems.length := by
      by_contra hc
      rw [List.getElem?_eq_none (by omega)] at h
      cases h
    unfold TimeOctomap.update_current TimeOctomap.get_current_timeslice
    rw [if_pos hpos, h]
    simp [hlt]
  · cases h

/-- C1: in every state reached from a freshly constructed index of capacity `N ≥ 1`,
`insert_atom(p, e)` followed at once by `get_atom_at_location(p)` returns `e`, whether
or not the buffer has reached its capacity. -/
theorem insert_then_lookup_returns_inserted (N : Nat) (mr : Rat) (res : duration_c)
    (now : time_pt) (ops : List Op) (p : point3d) (e : Handle) (hN : 1 ≤ N) :
    ((run (construct N mr res now) ops).insert_atom p e).get_atom_at_location p = e := by
  have hinv : WindowInv N res (run (construct N mr res now) ops) :=
    (WindowInv.construct N mr res now hN).run ops
  obtain ⟨tu, htu⟩ := hinv.current_isSome
  unfold TimeOctomap.get_atom_at_location TimeOctomap.insert_atom
  rw [get_current_update_current _ _ tu htu]
  exact TimeSlice.get_insert_same tu p e

/-- Witness for C1: capacity 2, three steps (the buffer is full and has wrapped), then
insert and look up at (1,2,3). -/
theorem insert_then_lookup_returns_inserted_witness :
    1 ≤ 2 ∧
    ((run (construct 2 1 1 0) [Op.step_time_unit, Op.step_time_unit,
        Op.step_time_unit]).insert_atom ⟨1, 2, 3⟩ (some 7)).get_atom_at_location ⟨1, 2, 3⟩
      = some 7 :=
  ⟨by decide, insert_then_lookup_returns_inserted 2 1 1 0
    [Op.step_time_unit, Op.step_time_unit, Op.step_time_unit] ⟨1, 2, 3⟩ (some 7) (by decide)⟩

/-! ## A clock that does not wrap around -/

theorem wrap64_eq_self (v : Int) (h1 : -9223372036854775808 ≤ v)
    (h2 : v < 9223372036854775808) : wrap64 v = v := by
  unfold wrap64
  omega

theorem fits_succ (c r : Int) (n : Nat) (hr : 0 < r)
    (h : c + ((n + 1 : Nat) : Int) * r < 9223372036854775808) :
    c + r < 9223372036854775808 ∧ c + r + (n : Int) * r < 9223372036854775808 ∧
      c + (n : Int) * r < 9223372036854775808 := by
  have h0 : 0 ≤ (n : Int) * r := mul_nonneg (Int.ofNat_nonneg n) (le_of_lt hr)
  have h1 : ((n + 1 : Nat) : Int) * r = (n : Int) * r + r := by push_cast; ring
  rw [h1] at h
  refine ⟨by linarith, by linarith, by linarith⟩

theorem fits_split (c r : Int) (a b : Nat) (hr : 0 < r)
    (h : c + ((a + b : Nat) : Int) * r < 9223372036854775808) :
    c + (a : Int) * r < 9223372036854775808 ∧
      c + (a : Int) * r + (b : Int) * r < 9223372036854775808 := by
  have h0 : 0 ≤ (b : Int) * r := mul_nonneg (Int.ofNat_nonneg b) (le_of_lt hr)
  have h1 : ((a + b : Nat) : Int) * r = (a : Int) * r + (b : Int) * r := by push_cast; ring
  rw [h1] at h
  refine ⟨by linarith, by linarith⟩

theorem ExactInv.of_same_window {res : duration_c} {m m' : TimeOctomap}
    (h : ExactInv res m) (hs : SameWindow m m') : ExactInv res m' :=
  ⟨by rw [hs.ts]; exact h.chain_exact, by rw [hs.cur]; exact h.lower⟩

theorem ExactInv.of_construct_state (N : Nat) (mr : Rat) (res : duration_c) (now : time_pt)
    (hN : 1 ≤ N) (hlo : -9223372036854775808 ≤ now) :
    ExactInv res (construct N mr res now) := by
  have h0 : N ≠ 0 := by omega
  have hlt : 0 < N := by omega
  refine ⟨?_, hlo⟩
  simp [TimeOctomap.construct, circular_buffer.push_back, circular_buffer.size,
    TimeOctomap.timestamps, TimeSlice.create, h0, hlt]

theorem ExactInv.after_step {N : Nat} {res : duration_c} {m : TimeOctomap}
    (h : WindowInv N res m) (hx : ExactInv res m) (hres : 0 < res)
    (hfit : m.curr_time + res < 9223372036854775808) :
    ExactInv res m.step_time_unit ∧ m.step_time_unit.curr_time = m.curr_time + res := by
  have hlow := hx.lower
  have key : ∀ a b : Int, -9223372036854775808 ≤ a → 0 < b → -9223372036854775808 ≤ a + b := by
    intro a b h1 h2; omega
  have hw : wrap64 (m.curr_time + m.time_res) = m.curr_time + res := by
    rw [h.res_eq]
    exact wrap64_eq_self _ (key _ _ hlow hres) hfit
  have h0 : m.time_circle.capacity ≠ 0 := by
    have := h.cap
    have := h.size_pos
    have := h.size_le
    omega
  have hcur : m.step_time_unit.curr_time = m.curr_time + res := hw
  refine ⟨⟨?_, ?_⟩, hcur⟩
  · rw [timestamps_step m h0, hw]
    have hc : List.Chain' (fun a b => b = a + res)
        (if m.time_circle.size < m.time_circle.capacity then m.timestamps
          else m.timestamps.tail) := by
      split
      · exact hx.chain_exact
      · exact hx.chain_exact.tail
    refine List.Chain'.append hc (List.chain'_singleton _) ?_
    intro x hx1 y hy
    have hx2 : x ∈ m.timestamps.getLast? := by
      by_cases hlt : m.time_circle.size < m.time_circle.capacity
      · simpa [hlt] using hx1
      · simp only [hlt, if_false] at hx1
        exact getLast?_tail_mem _ _ hx1
    rw [h.last] at hx2
    simp only [Option.mem_def, Option.some.injEq] at hx2
    simp only [List.head?_cons, Option.mem_def, Option.some.injEq] at hy
    rw [← hx2, ← hy]
  · rw [hcur]
    exact key _ _ hlow hres

theorem count_steps_cons_other (op : Op) (ops : List Op) (h : op ≠ Op.step_time_unit) :
    count_steps (op :: ops) = count_steps ops := by
  cases op <;> first | rfl | exact absurd rfl h

theorem ExactInv.after_run {N : Nat} {res : duration_c} (hres : 0 < res) (ops : List Op)
    {m : TimeOctomap} (h : WindowInv N res m) (hx : ExactInv res m)
    (hfit : m.curr_time + (count_steps ops : Int) * res < 9223372036854775808) :
    ExactInv res (run m ops) ∧
      (run m ops).curr_time = m.curr_time + (count_steps ops : Int) * res := by
  induction ops generalizing m with
  | nil => exact ⟨hx, by simp [run, count_steps]⟩
  | cons op ops ih =>
    by_cases hop : op = Op.step_time_unit
    · subst hop
      have hcs : count_steps (Op.step_time_unit :: ops) = count_steps ops + 1 := rfl
      rw [hcs] at hfit ⊢
      obtain ⟨f1, f2, -⟩ := fits_succ _ _ _ hres hfit
      obtain ⟨hx1, hc1⟩ := ExactInv.after_step h hx hres f1
      have ih' := ih h.step hx1 (by rw [hc1]; exact f2)
      refine ⟨ih'.1, ?_⟩
      show (run m.step_time_unit ops).curr_time = _
      rw [ih'.2, hc1]
      push_cast
      ring
    · have hs := SameWindow.of_apply m op hop
      rw [count_steps_cons_other op ops hop] at hfit ⊢
      have ih' := ih (h.of_same hs) (hx.of_same_window hs) (by rw [hs.cur]; exact hfit)
      refine ⟨ih'.1, ?_⟩
      show (run (op.apply m) ops).curr_time = _
      rw [ih'.2, hs.cur]

theorem ExactInv.after_steps {N : Nat} {res : duration_c} (hres : 0 < res) (k : Nat)
    {m : TimeOctomap} (h : WindowInv N res m) (hx : ExactInv res m)
    (hfit : m.curr_time + (k : Int) * res < 9223372036854775808) :
    ExactInv res (steps m k) ∧ (steps m k).curr_time = m.curr_time + (k : Int) * res := by
  induction k with
  | zero => exact ⟨hx, by simp [steps]⟩
  | succ k ih =>
    obtain ⟨-, f2, f3⟩ := fits_succ _ _ _ hres hfit
    obtain ⟨hxk, hck⟩ := ih f3
    have hb : (steps m k).curr_time + res < 9223372036854775808 := by
      rw [hck]
      have e : m.curr_time + (k : Int) * res + res = m.curr_time + res + (k : Int) * res := by
        ring
      rw [e]
      exact f2
    obtain ⟨hx1, hc1⟩ := ExactInv.after_step (h.steps k) hxk hres hb
    refine ⟨hx1, ?_⟩
    show (steps m k).step_time_unit.curr_time = _
    rw [hc1, hck]
    push_cast
    ring

theorem ExactInv.of_fits (N : Nat) (mr : Rat) (res : duration_c) (now : time_pt)
    (ops : List Op) (hN : 1 ≤ N) (hres : 0 < res)
    (hfit : clock_fits now res (count_steps ops)) :
    ExactInv res (run (construct N mr res now) ops) ∧
      (run (construct N mr res now) ops).curr_time
        = now + (count_steps ops : Int) * res :=
  ExactInv.after_run hres ops (WindowInv.construct N mr res now hN)
    (ExactInv.of_construct_state N mr res now hN hfit.1) hfit.2

theorem ExactInv.pairwise_lt {res : duration_c} {m : TimeOctomap}
    (hx : ExactInv res m) (hres : 0 < res) :
    List.Pairwise (fun a b : Int => a < b) m.timestamps := by
  have hres' : (0 : Int) < res := hres
  have hc : List.Chain' (fun a b : Int => a < b) m.timestamps :=
    hx.chain_exact.imp (fun a b (hab : (b : Int) = a + res) => by omega)
  exact List.chain'_iff_pairwise.mp hc

/-- C4, as stated, fails: with capacity 3, resolution 4·10^18 ticks and the clock at
1793559479423672444, the second `step_time_unit` overflows the 64-bit tick count; the
last timestamp is negative, so the timestamps are not increasing and the last two do
not differ by `time_res`. -/
theorem window_invariant_fails_on_overflow :
    (0 : Int) < 4000000000000000000 ∧
    (run (construct 3 1 4000000000000000000 1793559479423672444)
      [Op.step_time_unit, Op.step_time_unit]).timestamps
      = [1793559479423672444, 5793559479423672444, -8653184594285879172] ∧
    ¬ List.Pairwise (fun a b : Int => a < b)
      (run (construct 3 1 4000000000000000000 1793559479423672444)
        [Op.step_time_unit, Op.step_time_unit]).timestamps ∧
    ¬ List.Chain' (fun a b : Int => b - a = 4000000000000000000)
      (run (construct 3 1 4000000000000000000 1793559479423672444)
        [Op.step_time_unit, Op.step_time_unit]).timestamps := by
  have h : (run (construct 3 1 4000000000000000000 1793559479423672444)
      [Op.step_time_unit, Op.step_time_unit]).timestamps
      = [1793559479423672444, 5793559479423672444, -8653184594285879172] := by decide
  refine ⟨by decide, h, ?_, ?_⟩
  · rw [h]; decide
  · rw [h]
    intro hc
    have h2 := (List.chain'_cons.mp (List.chain'_cons.mp hc).2).1
    revert h2
    decide

/-- C4, amended: for capacity `N ≥ 1` and a positive time resolution, after construction
and after any sequence of state-changing operations the buffer holds between 1 and `N`
slices and the last timestamp is `curr_time`; and as long as the 64-bit clock has not
overflowed (the clock reading `now` at construction is at least -2^63 and `now` plus
`time_res` times the number of steps taken is below 2^63), the timestamps are strictly
increasing in buffer order and neighbours differ by exactly `time_res`. -/
theorem window_invariant (N : Nat) (mr : Rat) (res : duration_c) (now : time_pt)
    (ops : List Op) (hN : 1 ≤ N) (hres : 0 < res) :
    1 ≤ (run (construct N mr res now) ops).time_circle.size ∧
    (run (construct N mr res now) ops).time_circle.size ≤ N ∧
    (run (construct N mr res now) ops).timestamps.getLast?
      = some (run (construct N mr res now) ops).curr_time ∧
    (clock_fits now res (count_steps ops) →
      List.Pairwise (fun a b => a < b) (run (construct N mr res now) ops).timestamps ∧
      List.Chain' (fun a b => b - a = (run (construct N mr res now) ops).time_res)
        (run (construct N mr res now) ops).timestamps) := by
  have hinv : WindowInv N res (run (construct N mr res now) ops) :=
    (WindowInv.construct N mr res now hN).run ops
  refine ⟨hinv.size_pos, hinv.size_le, hinv.last, fun hfit => ?_⟩
  obtain ⟨hx, -⟩ := ExactInv.of_fits N mr res now ops hN hres hfit
  refine ⟨hx.pairwise_lt hres, ?_⟩
  rw [hinv.res_eq]
  exact hx.chain_exact.imp (fun a b (hab : (b : Int) = a + res) => by
    show (b : Int) - a = res
    omega)

/-- Witness for C4: capacity 2, resolution 5, clock at 100, a run that steps past the
capacity and writes to the map in between. -/
theorem window_invariant_witness :
    1 ≤ 2 ∧ (0 : Int) < 5 ∧ clock_fits 100 5 (count_steps demo_ops) ∧
    (run (construct 2 1 5 100) demo_ops).timestamps = [110, 115] ∧
    List.Pairwise (fun a b => a < b) (run (construct 2 1 5 100) demo_ops).timestamps :=
  ⟨by decide, by decide, by decide, by decide,
    ((window_invariant 2 1 5 100 demo_ops (by decide) (by decide)).2.2.2 (by decide)).1⟩

theorem steps_elems {N : Nat} {res : duration_c} {m : TimeOctomap}
    (h : WindowInv N res m) (hx : ExactInv res m) (hres : 0 < res) (k : Nat)
    (hfit : m.curr_time + (k : Int) * res < 9223372036854775808) :
    ∃ F : List TimeSlice, F.length = k ∧ (∀ s ∈ F, m.curr_time < s.t) ∧
      (steps m k).time_circle.elems
        = (m.time_circle.elems ++ F).drop (m.time_circle.size + k - N) := by
  have hres' : (0 : Int) < res := hres
  induction k with
  | zero =>
    refine ⟨[], rfl, by simp, ?_⟩
    have hle := h.size_le
    have h0 : m.time_circle.size - N = 0 := by omega
    simp [steps, h0]
  | succ k ih =>
    obtain ⟨-, f2, f3⟩ := fits_succ _ _ _ hres hfit
    obtain ⟨F, hF, hFt, hel⟩ := ih f3
    obtain ⟨hxk, hck⟩ := ExactInv.after_steps hres k h hx f3
    have hinv := h.steps k
    have hcap := hinv.cap
    have hpos := h.size_pos
    have hsz : m.time_circle.size = m.time_circle.elems.length := rfl
    have h0 : (steps m k).time_circle.capacity ≠ 0 := by
      have := hinv.size_pos
      have := hinv.size_le
      omega
    have hb : (steps m k).curr_time + res < 9223372036854775808 := by
      rw [hck]
      have e : m.curr_time + (k : Int) * res + res = m.curr_time + res + (k : Int) * res := by
        ring
      rw [e]
      exact f2
    have hw : wrap64 ((steps m k).curr_time + (steps m k).time_res)
        = m.curr_time + (k : Int) * res + res := by
      have := (ExactInv.after_step hinv hxk hres hb).2
      rw [hck] at this
      exact this
    have hk : (0 : Int) ≤ (k : Int) * res := by positivity
    refine ⟨F ++ [TimeSlice.create (wrap64 ((steps m k).curr_time + (steps m k).time_res))
      (steps m k).time_res], by simp [hF], ?_, ?_⟩
    · intro s hs
      rcases List.mem_append.mp hs with hs | hs
      · exact hFt s hs
      · simp only [List.mem_singleton] at hs
        subst hs
        show (m.curr_time : Int) < wrap64 ((steps m k).curr_time + (steps m k).time_res)
        rw [hw]
        have key : ∀ a b c : Int, 0 ≤ b → 0 < c → a < a + b + c := by
          intro a b c hb hc; omega
        exact key _ _ _ hk hres'
    · show (steps m k).step_time_unit.time_circle.elems = _
      unfold TimeOctomap.step_time_unit circular_buffer.push_back
      simp only [h0, if_false]
      have hlen : (steps m k).time_circle.size
          = m.time_circle.size + k - (m.time_circle.size + k - N) := by
        simp [circular_buffer.size, hel, hF]
      by_cases hlt : (steps m k).time_circle.size < (steps m k).time_circle.capacity
      · have hd : m.time_circle.size + k - N = 0 := by omega
        have hd' : m.time_circle.size + (k + 1) - N = 0 := by omega
        simp only [hlt, if_true, hel, hd, hd', List.drop_zero, List.append_assoc]
      · have hd' : m.time_circle.size + (k + 1) - N = (m.time_circle.size + k - N) + 1 := by
          omega
        simp only [hlt, if_false, hel, hd', List.tail_drop]
        rw [← List.append_assoc]
        refine (List.drop_append_of_le_length ?_).symm
        simp only [List.length_append, hF]
        omega

theorem WindowInv.split_last {N : Nat} {res : duration_c} {m : TimeOctomap}
    (h : WindowInv N res m) (tu : TimeSlice)
    (hc : m.get_current_timeslice = some tu) :
    ∃ init, m.time_circle.elems = init ++ [tu] ∧ tu.t = m.curr_time := by
  rw [h.current_eq_getLast] at hc
  obtain ⟨init, hinit⟩ := List.getLast?_eq_some_iff.mp hc
  refine ⟨init, hinit, ?_⟩
  have hl := h.last
  simp only [TimeOctomap.timestamps, hinit, List.map_append, List.map_cons, List.map_nil,
    List.getLast?_concat, Option.some.injEq] at hl
  exact hl

theorem WindowInv.split_current {N : Nat} {res : duration_c} {m : TimeOctomap}
    (h : WindowInv N res m) (hx : ExactInv res m) (hres : 0 < res) (tu : TimeSlice)
    (hc : m.get_current_timeslice = some tu) :
    ∃ init, m.time_circle.elems = init ++ [tu] ∧ tu.t = m.curr_time ∧
      ∀ s ∈ init, s.t < tu.t := by
  obtain ⟨init, hinit, hl⟩ := h.split_last tu hc
  refine ⟨init, hinit, hl, ?_⟩
  have hp := hx.pairwise_lt hres
  simp only [TimeOctomap.timestamps, hinit, List.map_append, List.map_cons, List.map_nil] at hp
  intro s hs
  exact (List.pairwise_append.mp hp).2.2 s.t (List.mem_map_of_mem _ hs) tu.t (by simp)

theorem find_after_steps {N : Nat} {res : duration_c} {m : TimeOctomap}
    (h : WindowInv N res m) (hx : ExactInv res m) (hres : 0 < res) (tu : TimeSlice)
    (hc : m.get_current_timeslice = some tu) (k : Nat)
    (hfit : m.curr_time + (k : Int) * res < 9223372036854775808) :
    (k < N → (steps m k).find tu.t = some tu) ∧
    (N ≤ k → ∀ s ∈ (steps m k).time_circle.elems, tu.t < s.t) := by
  obtain ⟨init, hinit, htu, hlt⟩ := h.split_current hx hres tu hc
  obtain ⟨F, hF, hFt, hel⟩ := steps_elems h hx hres k hfit
  have hsz : m.time_circle.size = init.length + 1 := by
    simp [circular_buffer.size, hinit]
  constructor
  · intro hk
    have hd : m.time_circle.size + k - N ≤ init.length := by omega
    unfold TimeOctomap.find
    rw [hel, hinit, List.append_assoc, List.drop_append_of_le_length hd, List.find?_append]
    have hnone : List.find? (fun s => s.matches_time tu.t)
        (List.drop (m.time_circle.size + k - N) init) = none := by
      rw [List.find?_eq_none]
      intro s hs
      have := hlt s (List.mem_of_mem_drop hs)
      simp only [TimeSlice.matches_time, decide_eq_true_eq]
      exact ne_of_lt this
    rw [hnone]
    simp [TimeSlice.matches_time]
  · intro hk s hs
    rw [hel, hinit, List.append_assoc] at hs
    have hs' := List.mem_of_mem_drop hs
    have hd : init.length + 1 ≤ m.time_circle.size + k - N := by omega
    rw [← List.append_assoc, List.drop_append_eq_append_drop] at hs
    rw [List.drop_of_length_le (by simp; omega)] at hs
    simp only [List.nil_append] at hs
    rw [htu]
    exact hFt s (List.mem_of_mem_drop hs)

/-- C3, as stated, fails: with capacity 2, resolution 2^62 ticks and the clock at 0, the
current slice has timestamp 0; four calls of `step_time_unit` (more than the capacity)
wrap the 64-bit tick count around to 0 again, so a retained slice has timestamp 0 and
`find(0)` is not none. -/
theorem evicted_timestamp_returns_on_overflow :
    1 ≤ 2 ∧ (0 : Int) < 4611686018427387904 ∧
    (construct 2 1 4611686018427387904 0).get_current_timeslice
      = some (TimeSlice.create 0 4611686018427387904) ∧
    (steps (construct 2 1 4611686018427387904 0) 4).timestamps
      = [-4611686018427387904, 0] ∧
    (0 : Int) ∈ (steps (construct 2 1 4611686018427387904 0) 4).timestamps ∧
    (steps (construct 2 1 4611686018427387904 0) 4).find 0 ≠ none := by
  decide

/-- C3, amended: for capacity `N ≥ 1` and a positive time resolution, let `tu` be the
current slice of a reachable state and `T` its timestamp, and let the 64-bit clock not
overflow up to the `k`-th further call of `step_time_unit` (the clock reading `now` at
construction is at least -2^63 and `now` plus `time_res` times the number of all steps is
below 2^63). After `k ≥ N` further calls no retained slice has timestamp `T`: `find(T)`
is none, `get_atom_at_time_by_location(T, p)` is the undefined entity for every `p` and
`get_locations_of_atom_at_time(T, e)` is empty for every `e`. After `k < N` calls
`find(T)` still returns that very slice. -/
theorem evicted_after_capacity_steps (N : Nat) (mr : Rat) (res : duration_c)
    (now : time_pt) (ops : List Op) (tu : TimeSlice) (k : Nat)
    (hN : 1 ≤ N) (hres : 0 < res)
    (hfit : clock_fits now res (count_steps ops + k))
    (hcur : (run (construct N mr res now) ops).get_current_timeslice = some tu) :
    (N ≤ k →
      tu.t ∉ (steps (run (construct N mr res now) ops) k).timestamps ∧
      (steps (run (construct N mr res now) ops) k).find tu.t = none ∧
      (∀ p, (steps (run (construct N mr res now) ops) k).get_atom_at_time_by_location tu.t p
        = UndefinedHandle) ∧
      (∀ e, (steps (run (construct N mr res now) ops) k).get_locations_of_atom_at_time tu.t e
        = [])) ∧
    (k < N → (steps (run (construct N mr res now) ops) k).find tu.t = some tu) := by
  have hinv : WindowInv N res (run (construct N mr res now) ops) :=
    (WindowInv.construct N mr res now hN).run ops
  obtain ⟨g1, g2⟩ := fits_split now res (count_steps ops) k hres hfit.2
  obtain ⟨hx, hct⟩ := ExactInv.of_fits N mr res now ops hN hres ⟨hfit.1, g1⟩
  have hfit' : (run (construct N mr res now) ops).curr_time + (k : Int) * res
      < 9223372036854775808 := by
    rw [hct]
    exact g2
  obtain ⟨hfound, hgone⟩ := find_after_steps hinv hx hres tu hcur k hfit'
  refine ⟨fun hk => ?_, hfound⟩
  have hall := hgone hk
  have hnone : (steps (run (construct N mr res now) ops) k).find tu.t = none := by
    unfold TimeOctomap.find
    rw [List.find?_eq_none]
    intro s hs
    simp only [TimeSlice.matches_time, decide_eq_true_eq]
    exact ne_of_gt (hall s hs)
  refine ⟨?_, hnone, ?_, ?_⟩
  · intro hmem
    obtain ⟨s, hs, hst⟩ := List.mem_map.mp hmem
    have := hall s hs
    rw [hst] at this
    exact lt_irrefl _ this
  · intro p
    unfold TimeOctomap.get_atom_at_time_by_location
    rw [hnone]
  · intro e
    unfold TimeOctomap.get_locations_of_atom_at_time
    rw [hnone]

/-- Witness for C3: capacity 2, resolution 5, clock at 100; the current slice after the
sample run is the empty slice at time 115, and two further steps evict it. -/
theorem evicted_after_capacity_steps_witness :
    1 ≤ 2 ∧ (0 : Int) < 5 ∧ clock_fits 100 5 (count_steps demo_ops + 2) ∧
    (run (construct 2 1 5 100) demo_ops).get_current_timeslice
      = some (TimeSlice.create 115 5) ∧
    (steps (run (construct 2 1 5 100) demo_ops) 2).find 115 = none ∧
    (steps (run (construct 2 1 5 100) demo_ops) 1).find 115
      = some (TimeSlice.create 115 5) :=
  ⟨by decide, by decide, by decide, by decide,
    ((evicted_after_capacity_steps 2 1 5 100 demo_ops (TimeSlice.create 115 5) 2
      (by decide) (by decide) (by decide) (by decide)).1 (by decide)).2.1,
    (evicted_after_capacity_steps 2 1 5 100 demo_ops (TimeSlice.create 115 5) 1
      (by decide) (by decide) (by decide) (by decide)).2 (by decide)⟩

/-- C2, as stated, fails: with capacity 3 and resolution 1, after inserting entity 1 at
(0,0,0) in the initial slice (time 0) and stepping twice, the buffer holds the slices of
times 0, 1 and 2, and the time-qualified lookup at time 0 still returns entity 1. -/
theorem scenario_two_steps_still_retained :
    (steps ((construct 3 1 1 0).insert_atom ⟨0, 0, 0⟩ (some 1)) 2).get_atom_at_time_by_location
        0 ⟨0, 0, 0⟩ = some 1 ∧
    (steps ((construct 3 1 1 0).insert_atom ⟨0, 0, 0⟩ (some 1)) 2).get_atom_at_time_by_location
        0 ⟨0, 0, 0⟩ ≠ UndefinedHandle := by
  decide

/-- C2, amended: with capacity 3 and resolution 1, after inserting `A` at (0,0,0) in the
initial slice (timestamp `time0`), two calls of `step_time_unit` leave that slice retained
(the lookup at `time0` returns `A`); after a third call the lookup at `time0` returns the
undefined entity. -/
theorem scenario_three_steps_evict (mr : Rat) (time0 : time_pt) (A : Handle) :
    (steps ((construct 3 mr 1 time0).insert_atom ⟨0, 0, 0⟩ A) 2).get_atom_at_time_by_location
        time0 ⟨0, 0, 0⟩ = A ∧
    (steps ((construct 3 mr 1 time0).insert_atom ⟨0, 0, 0⟩ A) 3).get_atom_at_time_by_location
        time0 ⟨0, 0, 0⟩ = UndefinedHandle := by
  have w1 : ∀ v : Int, wrap64 (v + 1) ≠ v := by
    intro v; unfold wrap64; omega
  have w2 : ∀ v : Int, wrap64 (wrap64 (v + 1) + 1) ≠ v := by
    intro v; unfold wrap64; omega
  have w3 : ∀ v : Int, wrap64 (wrap64 (wrap64 (v + 1) + 1) + 1) ≠ v := by
    intro v; unfold wrap64; omega
  constructor
  · simp [steps, TimeOctomap.step_time_unit, TimeOctomap.construct, TimeOctomap.insert_atom,
      TimeOctomap.update_current, TimeOctomap.get_current_timeslice, TimeOctomap.current_index,
      circular_buffer.push_back, circular_buffer.size, TimeOctomap.get_atom_at_time_by_location,
      TimeOctomap.find, TimeSlice.matches_time, TimeSlice.create, TimeSlice.insert_atom,
      TimeSlice.get_atom_at_location, AtomOcTree.updateNode, AtomOcTree.setNodeData,
      AtomOcTree.search]
  · simp [steps, TimeOctomap.step_time_unit, TimeOctomap.construct, TimeOctomap.insert_atom,
      TimeOctomap.update_current, TimeOctomap.get_current_timeslice, TimeOctomap.current_index,
      circular_buffer.push_back, circular_buffer.size, TimeOctomap.get_atom_at_time_by_location,
      TimeOctomap.find, TimeSlice.matches_time, TimeSlice.create, TimeSlice.insert_atom,
      TimeSlice.get_atom_at_location, AtomOcTree.updateNode, AtomOcTree.setNodeData,
      AtomOcTree.search, UndefinedHandle, w1 time0, w2 time0, w3 time0]

/-! ## History queries -/

/-- C5 at a concrete input: entity 1 is observed at times 0 and 1 and `till_d` is 1. The
greatest observation time not after 1 is 1, yet the code reports success with the
earliest observation, 0. -/
theorem last_time_before_returns_earliest :
    seen_twice.get_timeline (some 1) = [0, 1] ∧
    seen_twice.get_last_time_before_elapse_atom_observed (some 1) 1 7 = (true, 0) ∧
    seen_twice.get_last_time_before_elapse_atom_observed (some 1) 1 7 ≠ (true, 1) := by
  decide

/-- C6 at a concrete input: entity 1 is observed only at time 0 and `till_d` is 1. The
latest observation not after 1 is at time 0, where entity 1 sits at (0,0,0), yet
`get_newest_locations` returns the empty list. -/
theorem newest_locations_misses_earlier_observation :
    seen_once.get_timeline (some 1) = [0] ∧
    seen_once.get_last_time_before_elapse_atom_observed (some 1) 1 7 = (true, 0) ∧
    seen_once.get_locations_of_atom_at_time 0 (some 1) = [⟨0, 0, 0⟩] ∧
    seen_once.get_newest_locations (some 1) 1 = [] := by
  decide

/-! ## Removal -/

theorem TimeSlice.get_after_clear (tu : TimeSlice) (p : point3d) :
    (tu.remove_atoms_at_location p).get_atom_at_location p = UndefinedHandle := by
  have h : ((tu.map_tree.updateNode p false).search p) = none := by
    unfold AtomOcTree.search AtomOcTree.updateNode
    rw [List.find?_eq_none]
    intro n hn
    simp only [Bool.false_eq_true, if_false, List.mem_filter, Bool.not_eq_true',
      decide_eq_false_iff_not] at hn
    simpa using hn.2
  unfold TimeSlice.get_atom_at_location TimeSlice.remove_atoms_at_location
  simp only [h]

theorem TimeSlice.not_mem_locations_after_clear (tu : TimeSlice) (p : point3d) (e : Handle) :
    p ∉ (tu.remove_atoms_at_location p).get_locations e := by
  unfold TimeSlice.get_locations TimeSlice.remove_atoms_at_location AtomOcTree.begin_tree
    AtomOcTree.updateNode
  intro hmem
  obtain ⟨n, hn, hnp⟩ := List.mem_map.mp hmem
  simp only [Bool.false_eq_true, if_false, List.mem_filter, Bool.not_eq_true',
    decide_eq_false_iff_not] at hn
  exact hn.1.2 hnp

theorem get_current_update_current_map (m : TimeOctomap) (f : TimeSlice → TimeSlice) :
    (m.update_current f).get_current_timeslice = m.get_current_timeslice.map f := by
  cases hc : m.get_current_timeslice with
  | none =>
    have : m.update_current f = m := by
      unfold TimeOctomap.update_current
      rw [hc]
    rw [this, hc]
    rfl
  | some tu => exact get_current_update_current m f tu hc

theorem find?_update_first (p : TimeSlice → Bool) (f : TimeSlice → TimeSlice)
    (hf : ∀ tu, p (f tu) = p tu) (l : List TimeSlice) :
    (update_first p f l).find? p = (l.find? p).map f := by
  induction l with
  | nil => simp [update_first]
  | cons a l ih =>
    unfold update_first
    by_cases ha : p a = true
    · simp [ha, hf]
    · simp [ha, ih]

theorem find_update_found (m : TimeOctomap) (T : time_pt) (f : TimeSlice → TimeSlice)
    (hf : ∀ tu, (f tu).t = tu.t) :
    (m.update_found T f).find T = (m.find T).map f := by
  unfold TimeOctomap.find TimeOctomap.update_found
  exact find?_update_first _ f (fun tu => by simp [TimeSlice.matches_time, hf]) _

/-- C7: after `remove_atoms_at_location(p)` the cell `p` of the current slice is empty:
`get_atom_at_location(p)` returns the undefined entity and `p` is among the locations of
no entity, so not of the former occupant; likewise after
`remove_atom_at_time_by_location(T, p)` for the slice found at `T`. -/
theorem clear_at_location_empties_cell (m : TimeOctomap) (p : point3d) (T : time_pt)
    (e : Handle) :
    (m.remove_atoms_at_location p).get_atom_at_location p = UndefinedHandle ∧
    p ∉ (m.remove_atoms_at_location p).get_locations_of_atom e ∧
    (m.remove_atom_at_time_by_location T p).get_atom_at_time_by_location T p
      = UndefinedHandle ∧
    p ∉ (m.remove_atom_at_time_by_location T p).get_locations_of_atom_at_time T e := by
  refine ⟨?_, ?_, ?_, ?_⟩
  · unfold TimeOctomap.get_atom_at_location TimeOctomap.remove_atoms_at_location
    rw [get_current_update_current_map]
    cases m.get_current_timeslice with
    | none => rfl
    | some tu => exact TimeSlice.get_after_clear tu p
  · unfold TimeOctomap.get_locations_of_atom TimeOctomap.remove_atoms_at_location
    rw [get_current_update_current_map]
    cases m.get_current_timeslice with
    | none => simp
    | some tu => exact TimeSlice.not_mem_locations_after_clear tu p e
  · unfold TimeOctomap.get_atom_at_time_by_location TimeOctomap.remove_atom_at_time_by_location
    rw [find_update_found m T (fun tu => tu.remove_atoms_at_location p) (fun _ => rfl)]
    cases m.find T with
    | none => rfl
    | some tu => exact TimeSlice.get_after_clear tu p
  · unfold TimeOctomap.get_locations_of_atom_at_time
      TimeOctomap.remove_atom_at_time_by_location
    rw [find_update_found m T (fun tu => tu.remove_atoms_at_location p) (fun _ => rfl)]
    cases m.find T with
    | none => simp
    | some tu => exact TimeSlice.not_mem_locations_after_clear tu p e

theorem mem_foldl_deleteNode (pl : List point3d) (tree : AtomOcTree) (n : AtomOcTreeNode)
    (h : n ∈ (pl.foldl (fun tree p => tree.deleteNode p) tree).nodes) :
    n ∈ tree.nodes ∧ n.coord ∉ pl := by
  induction pl generalizing tree with
  | nil => exact ⟨h, by simp⟩
  | cons q pl ih =>
    obtain ⟨h1, h2⟩ := ih (tree.deleteNode q) h
    simp only [AtomOcTree.deleteNode, List.mem_filter, Bool.not_eq_true',
      decide_eq_false_iff_not] at h1
    refine ⟨h1.1, ?_⟩
    simp only [List.mem_cons, not_or]
    exact ⟨h1.2, h2⟩

theorem TimeSlice.no_node_after_remove (tu : TimeSlice) (e : Handle) (n : AtomOcTreeNode)
    (h : n ∈ (tu.remove_atom e).map_tree.nodes) : n.data ≠ e := by
  unfold TimeSlice.remove_atom at h
  obtain ⟨h1, h2⟩ := mem_foldl_deleteNode _ _ n h
  obtain ⟨n0, hn0, hmap⟩ := List.mem_map.mp h1
  by_cases hd : n0.data = e
  · exfalso
    apply h2
    have hc : n.coord = n0.coord := by
      rw [← hmap]; simp [hd]
    rw [hc]
    exact List.mem_map.mpr ⟨n0, by simp [AtomOcTree.begin_tree, hn0, hd], rfl⟩
  · have : n = n0 := by
      rw [← hmap]; simp [hd]
    rw [this]
    exact hd

theorem TimeSlice.locations_after_remove (tu : TimeSlice) (e : Handle) :
    (tu.remove_atom e).get_locations e = [] := by
  unfold TimeSlice.get_locations AtomOcTree.begin_tree
  rw [List.map_eq_nil_iff, List.filter_eq_nil_iff]
  intro n hn
  simpa using TimeSlice.no_node_after_remove tu e n hn

theorem TimeSlice.not_seen_after_remove (tu : TimeSlice) (e : Handle) :
    (tu.remove_atom e).map_tree.leaves.any (fun nod => nod.data == e) = false := by
  rw [List.any_eq_false]
  intro n hn
  simpa using TimeSlice.no_node_after_remove tu e n hn

/-- C8: after `remove_atom(e)`, `get_locations_of_atom_at_time(T, e)` is empty for every
time `T` (so for every retained one), `get_locations_of_atom(e)` is empty and
`get_timeline(e)` is empty. -/
theorem remove_atom_clears_everywhere (m : TimeOctomap) (e : Handle) :
    (∀ T, (m.remove_atom e).get_locations_of_atom_at_time T e = []) ∧
    (m.remove_atom e).get_locations_of_atom e = [] ∧
    (m.remove_atom e).get_timeline e = [] := by
  have hall : ∀ s ∈ (m.remove_atom e).time_circle.elems, s.get_locations e = [] := by
    intro s hs
    obtain ⟨tu, -, rfl⟩ := List.mem_map.mp hs
    exact TimeSlice.locations_after_remove tu e
  refine ⟨?_, ?_, ?_⟩
  · intro T
    unfold TimeOctomap.get_locations_of_atom_at_time
    cases hf : (m.remove_atom e).find T with
    | none => rfl
    | some s => exact hall s (List.mem_of_find?_eq_some hf)
  · unfold TimeOctomap.get_locations_of_atom
    cases hc : (m.remove_atom e).get_current_timeslice with
    | none => rfl
    | some s =>
      apply hall s
      unfold TimeOctomap.get_current_timeslice at hc
      split at hc
      · exact List.getElem?_mem hc
      · cases hc
  · unfold TimeOctomap.get_timeline
    rw [List.map_eq_nil_iff, List.filter_eq_nil_iff]
    intro s hs
    obtain ⟨tu, -, rfl⟩ := List.mem_map.mp hs
    simp only [Bool.not_eq_true]
    exact TimeSlice.not_seen_after_remove tu e

/-! ## The timeline of an entity -/

theorem TimeSlice.seen_iff_locations (tu : TimeSlice) (e : Handle) :
    tu.map_tree.leaves.any (fun nod => nod.data == e) = !(tu.get_locations e).isEmpty := by
  unfold TimeSlice.get_locations AtomOcTree.begin_tree AtomOcTree.leaves
  induction tu.map_tree.nodes with
  | nil => simp
  | cons a l ih =>
    by_cases h : a.data = e
    · simp [h]
    · simp [List.filter_cons, h, ih]

theorem find?_of_mem_pairwise (l : List TimeSlice) (x : TimeSlice)
    (hp : List.Pairwise (fun a b : Int => a < b) (l.map (fun s => s.t))) (hx : x ∈ l) :
    l.find? (fun s => s.matches_time x.t) = some x := by
  induction l with
  | nil => cases hx
  | cons a l ih =>
    simp only [List.map_cons, List.pairwise_cons] at hp
    rcases List.mem_cons.mp hx with rfl | hx'
    · simp [TimeSlice.matches_time]
    · have hlt : a.t < x.t := hp.1 x.t (List.mem_map_of_mem _ hx')
      have hne : ¬ a.t = x.t := ne_of_lt hlt
      simp only [List.find?_cons, TimeSlice.matches_time, hne, decide_False]
      exact ih hp.2 hx'

theorem ExactInv.find_of_mem {res : duration_c} {m : TimeOctomap}
    (h : ExactInv res m) (hres : 0 < res) (x : TimeSlice)
    (hx : x ∈ m.time_circle.elems) : m.find x.t = some x :=
  find?_of_mem_pairwise _ x (h.pairwise_lt hres) hx

theorem ExactInv.timeline_eq {res : duration_c} {m : TimeOctomap}
    (h : ExactInv res m) (hres : 0 < res) (e : Handle) :
    m.get_timeline e
      = m.timestamps.filter (fun T => !(m.get_locations_of_atom_at_time T e).isEmpty) := by
  unfold TimeOctomap.get_timeline TimeOctomap.timestamps
  rw [List.filter_map]
  congr 1
  apply List.filter_congr
  intro x hx
  simp only [Function.comp_apply, TimeOctomap.get_locations_of_atom_at_time,
    h.find_of_mem hres x hx]
  exact TimeSlice.seen_iff_locations x e

theorem ExactInv.timeline_pairwise {res : duration_c} {m : TimeOctomap}
    (h : ExactInv res m) (hres : 0 < res) (e : Handle) :
    List.Pairwise (fun a b : Int => a < b) (m.get_timeline e) := by
  rw [h.timeline_eq hres e]
  exact (h.pairwise_lt hres).sublist (List.filter_sublist _)

/-- C9, as stated, fails: with capacity 5, resolution 2^62 ticks and the clock at 0, four
steps wrap the 64-bit tick count around, so the first and the last retained slice both
have timestamp 0. Entity 1 is written into the last slice only: `get_timeline` returns
[0], while `get_locations_of_atom_at_time(0, 1)` is empty (it reads the first slice), so
the timeline is not the list of retained timestamps at which that query is non-empty. -/
theorem timeline_misreads_on_overflow :
    1 ≤ 5 ∧ (0 : Int) < 4611686018427387904 ∧
    (run (construct 5 1 4611686018427387904 0) overflow_ops).timestamps
      = [0, 4611686018427387904, -9223372036854775808, -4611686018427387904, 0] ∧
    (run (construct 5 1 4611686018427387904 0) overflow_ops).get_timeline (some 1) = [0] ∧
    (run (construct 5 1 4611686018427387904 0) overflow_ops).get_locations_of_atom_at_time
      0 (some 1) = [] ∧
    (run (construct 5 1 4611686018427387904 0) overflow_ops).get_timeline (some 1)
      ≠ (run (construct 5 1 4611686018427387904 0) overflow_ops).timestamps.filter
          (fun T => !((run (construct 5 1 4611686018427387904 0)
            overflow_ops).get_locations_of_atom_at_time T (some 1)).isEmpty) := by
  decide

/-- C9, amended: for capacity `N ≥ 1` and a positive time resolution, in every reachable
state `get_timeline(e)` lists, in buffer order, timestamps of retained slices, its length
is the number of retained slices in which `e` occupies a cell, and that length is at
most `N`; and as long as the 64-bit clock has not overflowed (the clock reading `now` at
construction is at least -2^63 and `now` plus `time_res` times the number of steps taken
is below 2^63), it is exactly the list of retained timestamps at which
`get_locations_of_atom_at_time(T, e)` is non-empty and it is strictly increasing, so
each timestamp occurs once. -/
theorem timeline_lists_occupied_slices (N : Nat) (mr : Rat) (res : duration_c)
    (now : time_pt) (ops : List Op) (e : Handle) (hN : 1 ≤ N) (hres : 0 < res) :
    List.Sublist ((run (construct N mr res now) ops).get_timeline e)
      (run (construct N mr res now) ops).timestamps ∧
    ((run (construct N mr res now) ops).get_timeline e).length
      = (run (construct N mr res now) ops).time_circle.elems.countP
          (fun tu => !(tu.get_locations e).isEmpty) ∧
    ((run (construct N mr res now) ops).get_timeline e).length ≤ N ∧
    (clock_fits now res (count_steps ops) →
      (run (construct N mr res now) ops).get_timeline e
        = (run (construct N mr res now) ops).timestamps.filter
            (fun T => !((run (construct N mr res now) ops).get_locations_of_atom_at_time
              T e).isEmpty) ∧
      List.Pairwise (fun a b => a < b)
        ((run (construct N mr res now) ops).get_timeline e)) := by
  have hinv : WindowInv N res (run (construct N mr res now) ops) :=
    (WindowInv.construct N mr res now hN).run ops
  refine ⟨?_, ?_, ?_, fun hfit => ?_⟩
  · unfold TimeOctomap.get_timeline TimeOctomap.timestamps
    exact (List.filter_sublist _).map _
  · unfold TimeOctomap.get_timeline
    rw [List.length_map, List.countP_eq_length_filter]
    congr 1
    apply List.filter_congr
    intro x _
    exact TimeSlice.seen_iff_locations x e
  · unfold TimeOctomap.get_timeline
    rw [List.length_map]
    exact le_trans (List.length_filter_le _ _) hinv.size_le
  · obtain ⟨hx, -⟩ := ExactInv.of_fits N mr res now ops hN hres hfit
    exact ⟨hx.timeline_eq hres e, hx.timeline_pairwise hres e⟩

/-- Witness for C9: capacity 2, resolution 5, clock at 100, after the sample run
followed by a write of entity 1 into the current slice. -/
theorem timeline_lists_occupied_slices_witness :
    1 ≤ 2 ∧ (0 : Int) < 5 ∧
    clock_fits 100 5 (count_steps (demo_ops ++ [Op.insert_atom ⟨1, 1, 1⟩ (some 1)])) ∧
    (run (construct 2 1 5 100) (demo_ops ++ [Op.insert_atom ⟨1, 1, 1⟩ (some 1)])).get_timeline
      (some 1) = [115] ∧
    ((run (construct 2 1 5 100)
      (demo_ops ++ [Op.insert_atom ⟨1, 1, 1⟩ (some 1)])).get_timeline (some 1)).length ≤ 2 ∧
    List.Pairwise (fun a b => a < b) ((run (construct 2 1 5 100)
      (demo_ops ++ [Op.insert_atom ⟨1, 1, 1⟩ (some 1)])).get_timeline (some 1)) :=
  ⟨by decide, by decide, by decide, by decide,
    (timeline_lists_occupied_slices 2 1 5 100 (demo_ops ++ [Op.insert_atom ⟨1, 1, 1⟩ (some 1)])
      (some 1) (by decide) (by decide)).2.2.1,
    ((timeline_lists_occupied_slices 2 1 5 100
      (demo_ops ++ [Op.insert_atom ⟨1, 1, 1⟩ (some 1)])
      (some 1) (by decide) (by decide)).2.2.2 (by decide)).2⟩

theorem timeline_of_single (m : TimeOctomap) (e : Handle) (pre post : List TimeSlice)
    (tu : TimeSlice) (hsplit : m.time_circle.elems = pre ++ tu :: post)
    (hocc : tu.get_locations e ≠ [])
    (hpre : ∀ s ∈ pre, s.get_locations e = [])
    (hpost : ∀ s ∈ post, s.get_locations e = []) :
    m.get_timeline e = [tu.t] := by
  unfold TimeOctomap.get_timeline
  have h1 : pre.filter (fun s => s.map_tree.leaves.any (fun nod => nod.data == e)) = [] := by
    rw [List.filter_eq_nil_iff]
    intro s hs
    simp [TimeSlice.seen_iff_locations, hpre s hs]
  have h2 : post.filter (fun s => s.map_tree.leaves.any (fun nod => nod.data == e)) = [] := by
    rw [List.filter_eq_nil_iff]
    intro s hs
    simp [TimeSlice.seen_iff_locations, hpost s hs]
  have h3 : tu.map_tree.leaves.any (fun nod => nod.data == e) = true := by
    rw [TimeSlice.seen_iff_locations]
    cases hl : tu.get_locations e with
    | nil => exact absurd hl hocc
    | cons a l => rfl
  rw [hsplit, List.filter_append, List.filter_cons, h1, h2, h3]
  simp

/-- C10: boundary inclusivity. If the buffer is `pre ++ tu :: post`, entity `e`
occupies a cell of `tu` and of no slice in `pre` or `post`, and `T` is the timestamp of
`tu`, then `get_oldest_time_elapse_atom_observed(e, T)` and
`get_last_time_elapse_atom_observed(e, T)` both return true with result `T`. -/
theorem single_observation_boundary_inclusive (m : TimeOctomap) (e : Handle) (T : time_pt)
    (pre post : List TimeSlice) (tu : TimeSlice) (result : time_pt)
    (hsplit : m.time_circle.elems = pre ++ tu :: post) (hT : tu.t = T)
    (hocc : tu.get_locations e ≠ [])
    (hpre : ∀ s ∈ pre, s.get_locations e = [])
    (hpost : ∀ s ∈ post, s.get_locations e = []) :
    m.get_oldest_time_elapse_atom_observed e T result = (true, T) ∧
    m.get_last_time_elapse_atom_observed e T result = (true, T) := by
  have htl := timeline_of_single m e pre post tu hsplit hocc hpre hpost
  rw [hT] at htl
  constructor
  · unfold TimeOctomap.get_oldest_time_elapse_atom_observed
    simp [htl, TimeOctomap.sort]
  · unfold TimeOctomap.get_last_time_elapse_atom_observed
    simp [htl, TimeOctomap.sort]

/-- Witness for C10: entity 1 is seen only in the slice of time 0 of `seen_once`, which
is followed by the empty slice of time 1. -/
theorem single_observation_boundary_inclusive_witness :
    seen_once.time_circle.elems
      = [] ++ ({ t := 0, duration := 1,
                 map_tree := { nodes := [{ coord := ⟨0, 0, 0⟩, data := some 1 }] } } : TimeSlice)
          :: [TimeSlice.create 1 1] ∧
    seen_once.get_oldest_time_elapse_atom_observed (some 1) 0 7 = (true, 0) ∧
    seen_once.get_last_time_elapse_atom_observed (some 1) 0 7 = (true, 0) :=
  ⟨by decide,
    single_observation_boundary_inclusive seen_once (some 1) 0 []
      [TimeSlice.create 1 1]
      { t := 0, duration := 1,
        map_tree := { nodes := [{ coord := ⟨0, 0, 0⟩, data := some 1 }] } }
      7 (by decide) (by decide) (by decide) (by decide) (by decide)⟩

/-! ## Earliest and latest observation -/

theorem sort_sorted (tl : List time_pt) :
    List.Pairwise (fun a b : Int => a ≤ b) (TimeOctomap.sort tl) :=
  List.sorted_insertionSort (fun a b : Int => a ≤ b) tl

theorem mem_sort (tl : List time_pt) (t : time_pt) : t ∈ TimeOctomap.sort tl ↔ t ∈ tl :=
  (List.perm_insertionSort (fun a b : Int => a ≤ b) tl).mem_iff

theorem find?_ge_of_sorted (l : List Int) (from_d : Int)
    (hs : List.Pairwise (fun a b : Int => a ≤ b) l) (tp : Int)
    (hf : l.find? (fun tp => decide (tp ≥ from_d)) = some tp) :
    tp ∈ l ∧ from_d ≤ tp ∧ ∀ t ∈ l, from_d ≤ t → tp ≤ t := by
  induction l with
  | nil => simp at hf
  | cons a l ih =>
    rw [List.pairwise_cons] at hs
    rw [List.find?_cons] at hf
    by_cases ha : from_d ≤ a
    · have hd : decide (a ≥ from_d) = true := decide_eq_true ha
      rw [hd] at hf
      simp only [Option.some.injEq] at hf
      subst hf
      refine ⟨List.mem_cons_self _ _, ha, ?_⟩
      intro t ht _
      rcases List.mem_cons.mp ht with rfl | ht'
      · exact le_refl _
      · exact hs.1 t ht'
    · have hd : decide (a ≥ from_d) = false := decide_eq_false ha
      rw [hd] at hf
      obtain ⟨h1, h2, h3⟩ := ih hs.2 hf
      refine ⟨List.mem_cons_of_mem _ h1, h2, ?_⟩
      intro t ht hft
      rcases List.mem_cons.mp ht with rfl | ht'
      · exact absurd hft ha
      · exact h3 t ht' hft

/-- C11: `get_oldest_time_elapse_atom_observed(e, from_d)` returns true exactly when
some timestamp of `get_timeline(e)` is at or after `from_d`; the result is then the
least such timestamp; when it returns false, `result` keeps its value. -/
theorem oldest_at_or_after_is_least (m : TimeOctomap) (e : Handle) (from_d result : time_pt) :
    ((m.get_oldest_time_elapse_atom_observed e from_d result).1 = true
      ↔ ∃ t ∈ m.get_timeline e, from_d ≤ t) ∧
    ((m.get_oldest_time_elapse_atom_observed e from_d result).1 = true →
      (m.get_oldest_time_elapse_atom_observed e from_d result).2 ∈ m.get_timeline e ∧
      from_d ≤ (m.get_oldest_time_elapse_atom_observed e from_d result).2 ∧
      ∀ t ∈ m.get_timeline e, from_d ≤ t →
        (m.get_oldest_time_elapse_atom_observed e from_d result).2 ≤ t) ∧
    ((m.get_oldest_time_elapse_atom_observed e from_d result).1 = false →
      (m.get_oldest_time_elapse_atom_observed e from_d result).2 = result) := by
  unfold TimeOctomap.get_oldest_time_elapse_atom_observed
  cases hf : (TimeOctomap.sort (m.get_timeline e)).find? (fun tp => decide (tp ≥ from_d)) with
  | none =>
    simp only [hf, Bool.false_eq_true, false_iff, not_exists, not_and, false_implies,
      true_implies, true_and, and_true]
    intro t ht
    have h := List.find?_eq_none.mp hf t ((mem_sort _ t).mpr ht)
    simpa using h
  | some tp =>
    have h := find?_ge_of_sorted _ from_d (sort_sorted _) tp hf
    simp only [hf, true_iff, true_implies, Bool.true_eq_false, false_implies, and_true]
    refine ⟨⟨tp, (mem_sort _ tp).mp h.1, h.2.1⟩, (mem_sort _ tp).mp h.1, h.2.1, ?_⟩
    intro t ht hft
    exact h.2.2 t ((mem_sort _ t).mpr ht) hft

theorem getLast?_max_of_sorted (l : List Int) (g : Int)
    (hs : List.Pairwise (fun a b : Int => a ≤ b) l) (hg : l.getLast? = some g) :
    g ∈ l ∧ ∀ t ∈ l, t ≤ g := by
  obtain ⟨ys, rfl⟩ := List.getLast?_eq_some_iff.mp hg
  refine ⟨by simp, ?_⟩
  intro t ht
  rcases List.mem_append.mp ht with h1 | h1
  · exact (List.pairwise_append.mp hs).2.2 t h1 g (by simp)
  · simp only [List.mem_singleton] at h1
    rw [h1]

/-- C12: `get_last_time_elapse_atom_observed(e, from_d)` returns true exactly when
`get_timeline(e)` is non-empty and its greatest timestamp is at or after `from_d`; the
result is then that greatest timestamp, whatever `from_d` is; when it returns false,
`result` keeps its value. -/
theorem latest_at_or_after_is_greatest (m : TimeOctomap) (e : Handle)
    (from_d result : time_pt) :
    ((m.get_last_time_elapse_atom_observed e from_d result).1 = true
      ↔ ∃ g ∈ m.get_timeline e, (∀ t ∈ m.get_timeline e, t ≤ g) ∧ from_d ≤ g) ∧
    ((m.get_last_time_elapse_atom_observed e from_d result).1 = true →
      (m.get_last_time_elapse_atom_observed e from_d result).2 ∈ m.get_timeline e ∧
      ∀ t ∈ m.get_timeline e,
        t ≤ (m.get_last_time_elapse_atom_observed e from_d result).2) ∧
    ((m.get_last_time_elapse_atom_observed e from_d result).1 = false →
      (m.get_last_time_elapse_atom_observed e from_d result).2 = result) := by
  unfold TimeOctomap.get_last_time_elapse_atom_observed
  by_cases hlen : (m.get_timeline e).length = 0
  · have hnil : m.get_timeline e = [] := List.length_eq_zero.mp hlen
    simp [hnil]
  · simp only [hlen, if_false]
    cases hl : (TimeOctomap.sort (m.get_timeline e)).getLast? with
    | none =>
      exfalso
      rw [List.getLast?_eq_none_iff] at hl
      have : (m.get_timeline e) = [] := by
        cases hq : m.get_timeline e with
        | nil => rfl
        | cons a l =>
          have hm : a ∈ TimeOctomap.sort (m.get_timeline e) :=
            (mem_sort _ a).mpr (by rw [hq]; exact List.mem_cons_self _ _)
          rw [hl] at hm
          cases hm
      exact hlen (by rw [this]; rfl)
    | some back =>
      obtain ⟨hmem, hmax⟩ := getLast?_max_of_sorted _ back (sort_sorted _) hl
      have hmem' : back ∈ m.get_timeline e := (mem_sort _ back).mp hmem
      have hmax' : ∀ t ∈ m.get_timeline e, t ≤ back :=
        fun t ht => hmax t ((mem_sort _ t).mpr ht)
      by_cases hc : from_d > back ∧ back ≠ from_d
      · simp only [if_pos hc]
        simp only [Bool.false_eq_true, false_iff, not_exists, not_and,
          false_implies, true_implies, true_and, and_true]
        intro g hg hgmax
        have h1 : back ≤ g := hgmax back hmem'
        have h2 : g ≤ back := hmax' g hg
        have h3 : g = back := le_antisymm h2 h1
        rw [h3]
        exact not_le.mpr hc.1
      · simp only [if_neg hc]
        simp only [true_iff, true_implies, Bool.true_eq_false, false_implies,
          and_true]
        refine ⟨⟨back, hmem', hmax', ?_⟩, hmem', hmax'⟩
        by_contra hlt
        have hgt : from_d > back := not_le.mp hlt
        exact hc ⟨hgt, ne_of_lt hgt⟩

/-! ## One entity per cell -/

theorem coords_setNodeData (tree : AtomOcTree) (p : point3d) (e : Handle) :
    (tree.setNodeData p e).nodes.map (fun n => n.coord) = tree.nodes.map (fun n => n.coord) := by
  unfold AtomOcTree.setNodeData
  rw [List.map_map]
  apply List.map_congr_left
  intro n _
  by_cases h : n.coord = p <;> simp [h]

theorem TimeSlice.cells_distinct_insert (tu : TimeSlice) (p : point3d) (e : Handle)
    (h : tu.cells_distinct) : (tu.insert_atom p e).cells_distinct := by
  unfold TimeSlice.cells_distinct TimeSlice.insert_atom at *
  rw [coords_setNodeData]
  unfold AtomOcTree.updateNode
  rw [if_pos rfl]
  split
  · exact h
  · rename_i hs
    simp only [List.map_append, List.map_cons, List.map_nil]
    rw [List.nodup_append]
    refine ⟨h, List.nodup_singleton _, ?_⟩
    intro q hq hq'
    simp only [List.mem_singleton] at hq'
    subst hq'
    obtain ⟨n, hn, hnq⟩ := List.mem_map.mp hq
    apply hs
    unfold AtomOcTree.search
    rw [Option.isSome_iff_exists]
    cases hf : tu.map_tree.nodes.find? (fun n => decide (n.coord = q)) with
    | some x => exact ⟨x, rfl⟩
    | none =>
      have := List.find?_eq_none.mp hf n hn
      simp [hnq] at this

theorem TimeSlice.cells_distinct_clear (tu : TimeSlice) (p : point3d)
    (h : tu.cells_distinct) : (tu.remove_atoms_at_location p).cells_distinct := by
  unfold TimeSlice.cells_distinct TimeSlice.remove_atoms_at_location AtomOcTree.updateNode at *
  simp only [Bool.false_eq_true, if_false]
  exact h.sublist ((List.filter_sublist _).map _)

theorem foldl_deleteNode_sublist (pl : List point3d) (tree : AtomOcTree) :
    List.Sublist (pl.foldl (fun tree p => tree.deleteNode p) tree).nodes tree.nodes := by
  induction pl generalizing tree with
  | nil => exact List.Sublist.refl _
  | cons q pl ih =>
    exact (ih (tree.deleteNode q)).trans (List.filter_sublist _)

theorem TimeSlice.cells_distinct_remove (tu : TimeSlice) (e : Handle)
    (h : tu.cells_distinct) : (tu.remove_atom e).cells_distinct := by
  unfold TimeSlice.cells_distinct TimeSlice.remove_atom at *
  refine List.Nodup.sublist ((foldl_deleteNode_sublist _ _).map _) ?_
  have : (tu.map_tree.nodes.map
      (fun n => if n.data == e then { n with data := UndefinedHandle } else n)).map
        (fun n => n.coord) = tu.map_tree.nodes.map (fun n => n.coord) := by
    rw [List.map_map]
    apply List.map_congr_left
    intro n _
    by_cases hd : n.data = e <;> simp [hd]
  rw [this]
  exact h

theorem mem_update_first (p : TimeSlice → Bool) (f : TimeSlice → TimeSlice)
    (l : List TimeSlice) (s : TimeSlice) (hs : s ∈ update_first p f l) :
    s ∈ l ∨ ∃ tu ∈ l, s = f tu := by
  induction l with
  | nil => simp [update_first] at hs
  | cons a l ih =>
    unfold update_first at hs
    split at hs
    · rcases List.mem_cons.mp hs with h | h
      · exact Or.inr ⟨a, List.mem_cons_self _ _, h⟩
      · exact Or.inl (List.mem_cons_of_mem _ h)
    · rcases List.mem_cons.mp hs with h | h
      · exact Or.inl (h ▸ List.mem_cons_self _ _)
      · rcases ih h with h' | ⟨tu, htu, hst⟩
        · exact Or.inl (List.mem_cons_of_mem _ h')
        · exact Or.inr ⟨tu, List.mem_cons_of_mem _ htu, hst⟩

theorem CellsInv.after_update_current {m : TimeOctomap} (h : CellsInv m) (f : TimeSlice → TimeSlice)
    (hf : ∀ tu, tu.cells_distinct → (f tu).cells_distinct) :
    CellsInv (m.update_current f) := by
  unfold TimeOctomap.update_current
  cases hc : m.get_current_timeslice with
  | none => exact h
  | some tu =>
    intro s hs
    have htu : tu ∈ m.time_circle.elems := by
      unfold TimeOctomap.get_current_timeslice at hc
      split at hc
      · exact List.getElem?_mem hc
      · cases hc
    rcases List.mem_or_eq_of_mem_set hs with h1 | h1
    · exact h s h1
    · rw [h1]; exact hf tu (h tu htu)

theorem CellsInv.after_update_found {m : TimeOctomap} (h : CellsInv m) (T : time_pt)
    (f : TimeSlice → TimeSlice)
    (hf : ∀ tu, tu.cells_distinct → (f tu).cells_distinct) :
    CellsInv (m.update_found T f) := by
  intro s hs
  rcases mem_update_first _ f _ s hs with h1 | ⟨tu, htu, rfl⟩
  · exact h s h1
  · exact hf tu (h tu htu)

theorem CellsInv.step_time {m : TimeOctomap} (h : CellsInv m) :
    CellsInv m.step_time_unit := by
  intro s hs
  unfold TimeOctomap.step_time_unit circular_buffer.push_back at hs
  have hnew : (TimeSlice.create (m.curr_time + m.time_res) m.time_res).cells_distinct := by
    simp [TimeSlice.cells_distinct, TimeSlice.create]
  simp only at hs
  split at hs
  · exact h s hs
  · split at hs
    · rcases List.mem_append.mp hs with h1 | h1
      · exact h s h1
      · simp only [List.mem_singleton] at h1
        rw [h1]; exact hnew
    · rcases List.mem_append.mp hs with h1 | h1
      · exact h s (List.mem_of_mem_tail h1)
      · simp only [List.mem_singleton] at h1
        rw [h1]; exact hnew

theorem CellsInv.apply_any {m : TimeOctomap} (h : CellsInv m) (op : Op) :
    CellsInv (op.apply m) := by
  cases op with
  | step_time_unit => exact h.step_time
  | insert_atom p e =>
    exact h.after_update_current _ (fun tu htu => tu.cells_distinct_insert p e htu)
  | remove_atoms_at_location p =>
    exact h.after_update_current _ (fun tu htu => tu.cells_distinct_clear p htu)
  | remove_atom_at_time_by_location tp p =>
    exact h.after_update_found tp _ (fun tu htu => tu.cells_distinct_clear p htu)
  | remove_atom_at_current_time e =>
    exact h.after_update_current _ (fun tu htu => tu.cells_distinct_remove e htu)
  | remove_atom_at_time tp e =>
    exact h.after_update_found tp _ (fun tu htu => tu.cells_distinct_remove e htu)
  | remove_atom e =>
    intro s hs
    obtain ⟨tu, htu, rfl⟩ := List.mem_map.mp hs
    exact tu.cells_distinct_remove e (h tu htu)
  | auto_step_time astep =>
    show CellsInv (m.auto_step_time astep)
    unfold TimeOctomap.auto_step_time
    split
    · exact h
    · exact h

theorem CellsInv.run_ops (ops : List Op) {m : TimeOctomap} (h : CellsInv m) :
    CellsInv (run m ops) := by
  induction ops generalizing m with
  | nil => exact h
  | cons op ops ih => exact ih (h.apply_any op)

theorem CellsInv.of_construct (N : Nat) (mr : Rat) (res : duration_c) (now : time_pt) :
    CellsInv (construct N mr res now) := by
  intro s hs
  unfold TimeOctomap.construct circular_buffer.push_back at hs
  simp only [circular_buffer.size, List.length_nil, List.nil_append, List.tail_nil] at hs
  split at hs
  · cases hs
  · split at hs <;>
    · simp only [List.mem_singleton] at hs
      rw [hs]
      simp [TimeSlice.cells_distinct, TimeSlice.create]

theorem TimeSlice.one_entity_per_cell (tu : TimeSlice) (h : tu.cells_distinct)
    (q : point3d) (x y : Handle) (hx : q ∈ tu.get_locations x) (hy : q ∈ tu.get_locations y) :
    x = y := by
  unfold TimeSlice.get_locations AtomOcTree.begin_tree at hx hy
  obtain ⟨n1, hn1, hq1⟩ := List.mem_map.mp hx
  obtain ⟨n2, hn2, hq2⟩ := List.mem_map.mp hy
  simp only [List.mem_filter, beq_iff_eq] at hn1 hn2
  have heq : n1 = n2 :=
    List.inj_on_of_nodup_map h hn1.1 hn2.1 (by rw [hq1, hq2])
  rw [← hn1.2, ← hn2.2, heq]

theorem TimeSlice.not_mem_locations_of_other (tu : TimeSlice) (p : point3d) (a b : Handle)
    (hab : a ≠ b) : p ∉ (tu.insert_atom p b).get_locations a := by
  unfold TimeSlice.get_locations TimeSlice.insert_atom AtomOcTree.begin_tree
    AtomOcTree.setNodeData
  intro hmem
  obtain ⟨n', hn', hp⟩ := List.mem_map.mp hmem
  simp only [List.mem_filter, beq_iff_eq] at hn'
  obtain ⟨n, -, hg⟩ := List.mem_map.mp hn'.1
  by_cases hc : n.coord = p
  · rw [if_pos hc] at hg
    have : n'.data = b := by rw [← hg]
    exact hab (hn'.2.symm.trans this)
  · rw [if_neg hc] at hg
    rw [← hg] at hp
    exact hc hp

theorem TimeSlice.mem_locations_insert (tu : TimeSlice) (p : point3d) (b : Handle) :
    p ∈ (tu.insert_atom p b).get_locations b := by
  have hs := AtomOcTree.search_updateNode_true tu.map_tree p
  rw [Option.isSome_iff_exists] at hs
  obtain ⟨n, hn⟩ := hs
  unfold AtomOcTree.search at hn
  have hmem := List.mem_of_find?_eq_some hn
  have hcoord : n.coord = p := by simpa using List.find?_some hn
  unfold TimeSlice.get_locations TimeSlice.insert_atom AtomOcTree.begin_tree
    AtomOcTree.setNodeData
  refine List.mem_map.mpr ⟨{ n with data := b }, ?_, hcoord⟩
  simp only [List.mem_filter, beq_self_eq_true, and_true]
  exact List.mem_map.mpr ⟨n, hmem, by rw [if_pos hcoord]⟩

/-- C13: silent overwrite. In a state reached with capacity `N ≥ 1`, after
`insert_atom(p, a)` and then `insert_atom(p, b)` with `a ≠ b`, `get_atom_at_location(p)`
returns `b`, `p` is not among the locations of `a` and is among the locations of `b`;
and no cell holds two entities, in the current slice or in the slice found at any
time `T`. -/
theorem insert_overwrites_cell (N : Nat) (mr : Rat) (res : duration_c) (now : time_pt)
    (ops : List Op) (p : point3d) (a b : Handle) (hN : 1 ≤ N) (hab : a ≠ b) :
    (((run (construct N mr res now) ops).insert_atom p a).insert_atom p b).get_atom_at_location p
      = b ∧
    p ∉ (((run (construct N mr res now) ops).insert_atom p a).insert_atom p
      b).get_locations_of_atom a ∧
    p ∈ (((run (construct N mr res now) ops).insert_atom p a).insert_atom p
      b).get_locations_of_atom b ∧
    (∀ q x y,
      q ∈ (((run (construct N mr res now) ops).insert_atom p a).insert_atom p
        b).get_locations_of_atom x →
      q ∈ (((run (construct N mr res now) ops).insert_atom p a).insert_atom p
        b).get_locations_of_atom y → x = y) ∧
    (∀ T q x y,
      q ∈ (((run (construct N mr res now) ops).insert_atom p a).insert_atom p
        b).get_locations_of_atom_at_time T x →
      q ∈ (((run (construct N mr res now) ops).insert_atom p a).insert_atom p
        b).get_locations_of_atom_at_time T y → x = y) := by
  have hinv0 : WindowInv N res (run (construct N mr res now) ops) :=
    (WindowInv.construct N mr res now hN).run ops
  have hinv1 : WindowInv N res ((run (construct N mr res now) ops).insert_atom p a) :=
    hinv0.apply_op (Op.insert_atom p a)
  have hc0 : CellsInv (run (construct N mr res now) ops) :=
    (CellsInv.of_construct N mr res now).run_ops ops
  have hc2 : CellsInv
      (((run (construct N mr res now) ops).insert_atom p a).insert_atom p b) :=
    (hc0.apply_any (Op.insert_atom p a)).apply_any (Op.insert_atom p b)
  obtain ⟨tu1, htu1⟩ := hinv1.current_isSome
  have hcur : (((run (construct N mr res now) ops).insert_atom p a).insert_atom p
      b).get_current_timeslice = some (tu1.insert_atom p b) :=
    get_current_update_current _ _ tu1 htu1
  have hmem : tu1.insert_atom p b ∈ (((run (construct N mr res now) ops).insert_atom p
      a).insert_atom p b).time_circle.elems := by
    have h' := hcur
    unfold TimeOctomap.get_current_timeslice at h'
    split at h'
    · exact List.getElem?_mem h'
    · cases h'
  refine ⟨?_, ?_, ?_, ?_, ?_⟩
  · unfold TimeOctomap.get_atom_at_location
    rw [hcur]
    exact TimeSlice.get_insert_same tu1 p b
  · unfold TimeOctomap.get_locations_of_atom
    rw [hcur]
    exact TimeSlice.not_mem_locations_of_other tu1 p a b hab
  · unfold TimeOctomap.get_locations_of_atom
    rw [hcur]
    exact TimeSlice.mem_locations_insert tu1 p b
  · intro q x y
    unfold TimeOctomap.get_locations_of_atom
    rw [hcur]
    exact TimeSlice.one_entity_per_cell _ (hc2 _ hmem) q x y
  · intro T q x y
    unfold TimeOctomap.get_locations_of_atom_at_time
    cases hf : (((run (construct N mr res now) ops).insert_atom p a).insert_atom p
        b).find T with
    | none => intro hx; cases hx
    | some s =>
      exact TimeSlice.one_entity_per_cell s (hc2 s (List.mem_of_find?_eq_some hf)) q x y

/-- Witness for C13: capacity 2, after the sample run, entity 1 and then entity 2 are
written at (1,2,3). -/
theorem insert_overwrites_cell_witness :
    1 ≤ 2 ∧ (some 1 : Handle) ≠ some 2 ∧
    (((run (construct 2 1 5 100) demo_ops).insert_atom ⟨1, 2, 3⟩ (some 1)).insert_atom
      ⟨1, 2, 3⟩ (some 2)).get_atom_at_location ⟨1, 2, 3⟩ = some 2 ∧
    (⟨1, 2, 3⟩ : point3d) ∉ (((run (construct 2 1 5 100) demo_ops).insert_atom ⟨1, 2, 3⟩
      (some 1)).insert_atom ⟨1, 2, 3⟩ (some 2)).get_locations_of_atom (some 1) :=
  ⟨by decide, by decide,
    (insert_overwrites_cell 2 1 5 100 demo_ops ⟨1, 2, 3⟩ (some 1) (some 2)
      (by decide) (by decide)).1,
    (insert_overwrites_cell 2 1 5 100 demo_ops ⟨1, 2, 3⟩ (some 1) (some 2)
      (by decide) (by decide)).2.1⟩

/-! ## Times outside the window -/

theorem update_first_eq_self (p : TimeSlice → Bool) (f : TimeSlice → TimeSlice)
    (l : List TimeSlice) (h : ∀ x ∈ l, p x = false) : update_first p f l = l := by
  induction l with
  | nil => rfl
  | cons a l ih =>
    unfold update_first
    rw [h a (List.mem_cons_self _ _)]
    simp only [Bool.false_eq_true, if_false]
    rw [ih (fun x hx => h x (List.mem_cons_of_mem _ hx))]

theorem find_eq_none_of_not_mem (m : TimeOctomap) (T : time_pt) (hT : T ∉ m.timestamps) :
    m.find T = none := by
  unfold TimeOctomap.find
  rw [List.find?_eq_none]
  intro s hs hm
  apply hT
  simp only [TimeSlice.matches_time, decide_eq_true_eq] at hm
  exact List.mem_map.mpr ⟨s, hs, hm⟩

theorem update_found_eq_self (m : TimeOctomap) (T : time_pt) (f : TimeSlice → TimeSlice)
    (hT : T ∉ m.timestamps) : m.update_found T f = m := by
  unfold TimeOctomap.update_found
  rw [update_first_eq_self]
  intro s hs
  by_contra hm
  apply hT
  simp only [TimeSlice.matches_time, decide_eq_false_iff_not, not_not] at hm
  exact List.mem_map.mpr ⟨s, hs, hm⟩

/-- C14: when `T` is the timestamp of no retained slice,
`remove_atom_at_time_by_location(T, p)` and `remove_atom_at_time(T, e)` leave the whole
state as it is, `get_atom_at_time_by_location(T, p)` returns the undefined entity and
`get_locations_of_atom_at_time(T, e)` returns the empty list. -/
theorem absent_time_is_noop (m : TimeOctomap) (T : time_pt) (p : point3d) (e : Handle)
    (hT : T ∉ m.timestamps) :
    m.remove_atom_at_time_by_location T p = m ∧
    m.remove_atom_at_time T e = m ∧
    m.get_atom_at_time_by_location T p = UndefinedHandle ∧
    m.get_locations_of_atom_at_time T e = [] := by
  refine ⟨update_found_eq_self m T _ hT, update_found_eq_self m T _ hT, ?_, ?_⟩
  · unfold TimeOctomap.get_atom_at_time_by_location
    rw [find_eq_none_of_not_mem m T hT]
  · unfold TimeOctomap.get_locations_of_atom_at_time
    rw [find_eq_none_of_not_mem m T hT]

/-- Witness for C14: `seen_once` retains the slices of times 0 and 1; time 5 is not
among them. -/
theorem absent_time_is_noop_witness :
    (5 : Int) ∉ seen_once.timestamps ∧
    seen_once.remove_atom_at_time_by_location 5 ⟨0, 0, 0⟩ = seen_once ∧
    seen_once.remove_atom_at_time 5 (some 1) = seen_once ∧
    seen_once.get_atom_at_time_by_location 5 ⟨0, 0, 0⟩ = UndefinedHandle ∧
    seen_once.get_locations_of_atom_at_time 5 (some 1) = [] :=
  ⟨by decide, absent_time_is_noop seen_once 5 ⟨0, 0, 0⟩ (some 1) (by decide)⟩

/-! ## Writes go to the current slice -/

theorem WindowInv.elems_update_current {N : Nat} {res : duration_c} {m : TimeOctomap}
    (h : WindowInv N res m) (f : TimeSlice → TimeSlice) (init : List TimeSlice)
    (tu : TimeSlice) (hsplit : m.time_circle.elems = init ++ [tu]) :
    (m.update_current f).time_circle.elems = init ++ [f tu] := by
  have hcur : m.get_current_timeslice = some tu := by
    rw [h.current_eq_getLast, hsplit, List.getLast?_concat]
  have hidx : m.current_index.toNat = init.length := by
    rw [h.current_index_eq]
    simp [circular_buffer.size, hsplit]
  unfold TimeOctomap.update_current
  rw [hcur]
  simp only [hidx, hsplit]
  rw [List.set_append_right _ _ (le_refl _)]
  simp

/-- C15: in a state reached with capacity `N ≥ 1` and a positive time resolution,
`insert_atom(p, e)` writes to the current slice, whose timestamp is `curr_time` and which
holds `e` at `p` afterwards, and to no other: for every time `T` other than `curr_time`
and every location `q`, `get_atom_at_time_by_location(T, q)` is the same before and
after, and the retained timestamps are the same. As long as the 64-bit clock has not
overflowed, the lookup at time `curr_time` returns `e` afterwards. -/
theorem insert_touches_only_current (N : Nat) (mr : Rat) (res : duration_c) (now : time_pt)
    (ops : List Op) (p : point3d) (e : Handle) (hN : 1 ≤ N) (hres : 0 < res) :
    (∀ T q, T ≠ (run (construct N mr res now) ops).curr_time →
      ((run (construct N mr res now) ops).insert_atom p e).get_atom_at_time_by_location T q
        = (run (construct N mr res now) ops).get_atom_at_time_by_location T q) ∧
    ((run (construct N mr res now) ops).insert_atom p e).timestamps
      = (run (construct N mr res now) ops).timestamps ∧
    (∃ tu, ((run (construct N mr res now) ops).insert_atom p e).get_current_timeslice
        = some tu ∧
      tu.t = (run (construct N mr res now) ops).curr_time ∧
      tu.get_atom_at_location p = e) ∧
    (clock_fits now res (count_steps ops) →
      ((run (construct N mr res now) ops).insert_atom p e).get_atom_at_time_by_location
        (run (construct N mr res now) ops).curr_time p = e) := by
  have hinv : WindowInv N res (run (construct N mr res now) ops) :=
    (WindowInv.construct N mr res now hN).run ops
  obtain ⟨tu, htu⟩ := hinv.current_isSome
  obtain ⟨init, hsplit, hcurt⟩ := hinv.split_last tu htu
  have hel := hinv.elems_update_current (fun s => s.insert_atom p e) init tu hsplit
  refine ⟨?_, (SameWindow.update_current (run (construct N mr res now) ops)
    (fun s => s.insert_atom p e) (fun _ => rfl)).ts, ?_, fun hfit => ?_⟩
  · intro T q hT
    have hfind : ((run (construct N mr res now) ops).insert_atom p e).find T
        = (run (construct N mr res now) ops).find T := by
      unfold TimeOctomap.find TimeOctomap.insert_atom
      rw [hel, hsplit, List.find?_append, List.find?_append]
      have hne : ¬ tu.t = T := by rw [hcurt]; exact fun h => hT h.symm
      simp [TimeSlice.matches_time, TimeSlice.insert_atom, hne]
    unfold TimeOctomap.get_atom_at_time_by_location
    rw [hfind]
  · exact ⟨tu.insert_atom p e, get_current_update_current _ _ tu htu, hcurt,
      TimeSlice.get_insert_same tu p e⟩
  · obtain ⟨hx, -⟩ := ExactInv.of_fits N mr res now ops hN hres hfit
    obtain ⟨init', hsplit', -, hlt⟩ := hinv.split_current hx hres tu htu
    have hii : init' = init := by
      have := hsplit'.symm.trans hsplit
      exact List.append_inj_left' this rfl
    rw [hii] at hlt
    have hfind : ((run (construct N mr res now) ops).insert_atom p e).find
        (run (construct N mr res now) ops).curr_time = some (tu.insert_atom p e) := by
      unfold TimeOctomap.find TimeOctomap.insert_atom
      rw [hel, List.find?_append]
      have hnone : List.find?
          (fun s => s.matches_time (run (construct N mr res now) ops).curr_time) init
            = none := by
        rw [List.find?_eq_none]
        intro s hs
        have := hlt s hs
        rw [hcurt] at this
        simp only [TimeSlice.matches_time, decide_eq_true_eq]
        exact ne_of_lt this
      rw [hnone]
      simp [TimeSlice.matches_time, TimeSlice.insert_atom, hcurt]
    unfold TimeOctomap.get_atom_at_time_by_location
    rw [hfind]
    exact TimeSlice.get_insert_same tu p e

/-- Witness for C15: capacity 2 after the sample run (slices at 110 and 115, the
current one at 115); a write does not show in the lookup at time 110. -/
theorem insert_touches_only_current_witness :
    1 ≤ 2 ∧ (0 : Int) < 5 ∧
    ((run (construct 2 1 5 100) demo_ops).insert_atom ⟨1, 2, 3⟩
      (some 9)).get_atom_at_time_by_location 110 ⟨1, 2, 3⟩
        = (run (construct 2 1 5 100) demo_ops).get_atom_at_time_by_location 110 ⟨1, 2, 3⟩ :=
  ⟨by decide, by decide,
    (insert_touches_only_current 2 1 5 100 demo_ops ⟨1, 2, 3⟩ (some 9)
      (by decide) (by decide)).1 110 ⟨1, 2, 3⟩ (by decide)⟩

/-! ## Geometric queries -/

theorem get_a_location_eq (m : TimeOctomap) (t : time_pt) (e : Handle) (loc : point3d) :
    m.get_a_location t e loc =
      match m.get_locations_of_atom_at_time t e with
      | [] => (false, loc)
      | front :: _ => (true, front) := by
  unfold TimeOctomap.get_a_location
  cases m.get_locations_of_atom_at_time t e with
  | nil => simp
  | cons a l => simp

/-- C16: symmetry. For every time `t` and entities `a`, `b`,
`get_distance_between(t, a, b)` equals `get_distance_between(t, b, a)`, whether both
resolve to a position (each to the first of its locations) or one of them does not
(both calls return -1); this holds for every square-root routine. -/
theorem distance_symmetric (m : TimeOctomap) (fp : Numerics) (t : time_pt) (a b : Handle) :
    m.get_distance_between fp t a b = m.get_distance_between fp t b a := by
  unfold TimeOctomap.get_distance_between
  simp only [get_a_location_eq]
  cases m.get_locations_of_atom_at_time t a with
  | nil =>
    cases m.get_locations_of_atom_at_time t b <;> simp
  | cons pa la =>
    cases m.get_locations_of_atom_at_time t b with
    | nil => simp
    | cons pb lb =>
      simp only [Bool.not_true, Bool.false_eq_true, if_false, point3d.toVector, sqr]
      congr 1
      ring

theorem locations_nil_of_find_none (m : TimeOctomap) (t : time_pt) (e : Handle)
    (h : m.find t = none) : m.get_locations_of_atom_at_time t e = [] := by
  unfold TimeOctomap.get_locations_of_atom_at_time
  rw [h]

/-- C17: provided the square-root routine returns a non-negative value on non-negative
input, `get_distance_between(t, a, b)` returns -1 exactly when `a` or `b` occupies no cell
at `t` (in particular when `t` is not retained); otherwise it returns the square root of
the sum of the squared coordinate differences of the two resolved positions, which is
non-negative; so a negative result always means unresolved. -/
theorem distance_sentinel_iff_unresolved (m : TimeOctomap) (fp : Numerics) (t : time_pt)
    (a b : Handle) (hs : ∀ v : Rat, 0 ≤ v → 0 ≤ fp.sqrt v) :
    (m.get_distance_between fp t a b = -1 ↔
      m.get_locations_of_atom_at_time t a = [] ∨ m.get_locations_of_atom_at_time t b = []) ∧
    (m.find t = none → m.get_distance_between fp t a b = -1) ∧
    (∀ pa pb, (m.get_locations_of_atom_at_time t a).head? = some pa →
      (m.get_locations_of_atom_at_time t b).head? = some pb →
      m.get_distance_between fp t a b
        = fp.sqrt (sqr ((pa.x : Rat) - pb.x) + sqr ((pa.y : Rat) - pb.y)
            + sqr ((pa.z : Rat) - pb.z)) ∧
      0 ≤ m.get_distance_between fp t a b) ∧
    (m.get_distance_between fp t a b < 0 →
      m.get_locations_of_atom_at_time t a = [] ∨ m.get_locations_of_atom_at_time t b = []) := by
  have hnn : ∀ pa pb : point3d, 0 ≤ fp.sqrt (sqr ((pa.x : Rat) - pb.x)
      + sqr ((pa.y : Rat) - pb.y) + sqr ((pa.z : Rat) - pb.z)) := by
    intro pa pb
    apply hs
    unfold sqr
    exact add_nonneg (add_nonneg (mul_self_nonneg _) (mul_self_nonneg _)) (mul_self_nonneg _)
  have hfind : m.find t = none → m.get_locations_of_atom_at_time t a = [] :=
    locations_nil_of_find_none m t a
  unfold TimeOctomap.get_distance_between
  simp only [get_a_location_eq]
  cases hla : m.get_locations_of_atom_at_time t a with
  | nil => simp
  | cons pa la =>
    cases hlb : m.get_locations_of_atom_at_time t b with
    | nil => simp
    | cons pb lb =>
      rw [hla] at hfind
      have h0 := hnn pa pb
      simp only [Bool.not_true, Bool.false_eq_true, if_false, point3d.toVector,
        List.head?_cons, Option.some.injEq, or_self, iff_false, reduceCtorEq]
      refine ⟨?_, ?_, ?_, ?_⟩
      · intro h
        rw [h] at h0
        norm_num at h0
      · intro h
        exact absurd (hfind h) (by simp)
      · intro qa qb hqa hqb
        subst hqa
        subst hqb
        exact ⟨rfl, h0⟩
      · intro h
        exact absurd h0 (not_le.mpr h)

theorem two_entities_locations :
    two_entities.get_locations_of_atom_at_time 0 (some 1) = [⟨1, 0, 0⟩] ∧
    two_entities.get_locations_of_atom_at_time 0 (some 2) = [⟨0, 0, 0⟩] := by
  decide

theorem sample_sqrt_nonneg : ∀ v : Rat, 0 ≤ v → 0 ≤ sample_numerics.sqrt v := by
  intro v _
  simp [sample_numerics]

/-- Witness for C17: entity 1 at (1,0,0) and entity 2 at (0,0,0) in one slice are at
distance 1. -/
theorem distance_sentinel_iff_unresolved_witness :
    (∀ v : Rat, 0 ≤ v → 0 ≤ sample_numerics.sqrt v) ∧
    two_entities.get_distance_between sample_numerics 0 (some 1) (some 2) = 1 := by
  refine ⟨sample_sqrt_nonneg, ?_⟩
  have h := ((distance_sentinel_iff_unresolved two_entities sample_numerics 0 (some 1) (some 2)
    sample_sqrt_nonneg).2.2.1 ⟨1, 0, 0⟩ ⟨0, 0, 0⟩
    (by rw [two_entities_locations.1]; rfl) (by rw [two_entities_locations.2]; rfl)).1
  rw [h]
  simp [sample_numerics, sqr]

/-- C18: `get_direction_vector(t, observer, target, dir)` returns true exactly when both
entities occupy a cell at `t`; `dir` is then the resolved target position minus the
resolved observer position, component by component; when it returns false `dir` keeps
its value. -/
theorem direction_is_difference (m : TimeOctomap) (t : time_pt) (obs tgt : Handle)
    (dir : point3d) :
    ((m.get_direction_vector t obs tgt dir).1 = true ↔
      m.get_locations_of_atom_at_time t obs ≠ [] ∧
      m.get_locations_of_atom_at_time t tgt ≠ []) ∧
    (∀ po pt, (m.get_locations_of_atom_at_time t obs).head? = some po →
      (m.get_locations_of_atom_at_time t tgt).head? = some pt →
      m.get_direction_vector t obs tgt dir
        = (true, { x := pt.x - po.x, y := pt.y - po.y, z := pt.z - po.z })) ∧
    ((m.get_direction_vector t obs tgt dir).1 = false →
      (m.get_direction_vector t obs tgt dir).2 = dir) := by
  unfold TimeOctomap.get_direction_vector
  simp only [get_a_location_eq]
  cases m.get_locations_of_atom_at_time t tgt with
  | nil => simp
  | cons pt lt =>
    cases m.get_locations_of_atom_at_time t obs with
    | nil => simp
    | cons po lo => simp [point3d.sub]

/-- Witness for C18: with entity 1 at (1,0,0) and entity 2 at (0,0,0), the direction
from observer 2 to target 1 is (1,0,0). -/
theorem direction_is_difference_witness :
    two_entities.get_direction_vector 0 (some 2) (some 1) ⟨7, 7, 7⟩ = (true, ⟨1, 0, 0⟩) :=
  (direction_is_difference two_entities 0 (some 2) (some 1) ⟨7, 7, 7⟩).2.1
    ⟨0, 0, 0⟩ ⟨1, 0, 0⟩ (by decide) (by decide)

/-- C19: in an index whose map resolution is not negative,
`get_spatial_relations(t, obs, target, obs)`, with the observer as the reference,
returns the unknown sentinel (-1,-1,-1), whether or not `obs` and `target` resolve at
`t` and whatever the numeric routines are. -/
theorem spatial_relations_observer_as_reference (m : TimeOctomap) (fp : Numerics)
    (t : time_pt) (obs tgt : Handle) (hres : 0 ≤ m.map_res) :
    m.get_spatial_relations fp t obs tgt obs = { x := -1, y := -1, z := -1 } := by
  have heps : (0 : Rat) ≤ m.map_res * (1 / 10) := by positivity
  unfold TimeOctomap.get_spatial_relations
  simp only [get_a_location_eq]
  cases m.get_locations_of_atom_at_time t obs with
  | nil => simp
  | cons po lo =>
    cases m.get_locations_of_atom_at_time t tgt with
    | nil => simp
    | cons pt lt =>
      simp only [Bool.not_true, Bool.false_eq_true, if_false, vector3.sub, sub_self, abs_zero]
      rw [if_pos ⟨heps, heps, heps⟩]

theorem two_entities_map_res : (0 : Rat) ≤ two_entities.map_res := by
  have h : two_entities.map_res = 1 := rfl
  rw [h]
  exact zero_le_one

/-- Witness for C19: in the sample state (map resolution 1) entity 2 is observer and
reference, entity 1 the target. -/
theorem spatial_relations_observer_as_reference_witness :
    (0 : Rat) ≤ two_entities.map_res ∧
    two_entities.get_spatial_relations sample_numerics 0 (some 2) (some 1) (some 2)
      = { x := -1, y := -1, z := -1 } :=
  ⟨two_entities_map_res,
    spatial_relations_observer_as_reference two_entities sample_numerics 0 (some 2) (some 1)
      two_entities_map_res⟩

/-- C20: `get_angular_nearness(t, obs, target, ref)` returns -1 exactly when at least one
of `obs`, `target`, `ref` occupies no cell at `t` (in particular when `t` is not
retained); in every other case it returns 0, 1 or 2, whatever `ang_vec` and the two
thresholds are. -/
theorem angular_nearness_unknown_iff_unresolved (m : TimeOctomap) (fp : Numerics)
    (t : time_pt) (obs tgt ref : Handle) :
    (m.get_angular_nearness fp t obs tgt ref = -1 ↔
      m.get_locations_of_atom_at_time t obs = [] ∨
      m.get_locations_of_atom_at_time t tgt = [] ∨
      m.get_locations_of_atom_at_time t ref = []) ∧
    (m.find t = none → m.get_angular_nearness fp t obs tgt ref = -1) ∧
    (m.get_angular_nearness fp t obs tgt ref ≠ -1 →
      m.get_angular_nearness fp t obs tgt ref = 0 ∨
      m.get_angular_nearness fp t obs tgt ref = 1 ∨
      m.get_angular_nearness fp t obs tgt ref = 2) := by
  have hfind : m.find t = none → m.get_locations_of_atom_at_time t obs = [] :=
    locations_nil_of_find_none m t obs
  unfold TimeOctomap.get_angular_nearness TimeOctomap.get_direction_vector
  simp only [get_a_location_eq]
  cases hlo : m.get_locations_of_atom_at_time t obs with
  | nil =>
    cases m.get_locations_of_atom_at_time t tgt <;> simp
  | cons po lo =>
    rw [hlo] at hfind
    have hf : ¬ m.find t = none := fun h => absurd (hfind h) (by simp)
    cases m.get_locations_of_atom_at_time t tgt with
    | nil => simp
    | cons pt lt =>
      cases m.get_locations_of_atom_at_time t ref with
      | nil => simp
      | cons pr lr =>
        simp only [Bool.not_true, Bool.false_eq_true, if_false, hf, false_implies,
          reduceCtorEq, or_self, iff_false, true_and]
        by_cases h1 : fp.ang_vec (pt.sub po) (pr.sub po) ≤ fp.TOUCH_ANGLE
        · simp [h1]
        · by_cases h2 : fp.ang_vec (pt.sub po) (pr.sub po) ≤ fp.NEAR_ANGLE
          · simp [h1, h2]
          · simp [h1, h2]

/-! ## The sorts in the history queries -/

theorem sort_eq_self_of_increasing (tl : List time_pt)
    (h : List.Pairwise (fun a b : Int => a < b) tl) : TimeOctomap.sort tl = tl := by
  unfold TimeOctomap.sort
  apply List.Sorted.insertionSort_eq
  exact List.Pairwise.imp (fun hab => le_of_lt hab) h

/-- C21, as stated, fails: with capacity 3, resolution 4·10^18 ticks and the clock at
1793559479423672444, entity 1 is written in each of three slices; the second step
overflows the 64-bit tick count, so `get_timeline` ends in a negative timestamp and is
not increasing, `tl.sort()` reorders it, and `get_last_time_elapse_atom_observed` for
`from_d` 0 succeeds while its copy without the sort fails. -/
theorem history_sort_matters_on_overflow :
    (0 : Int) < 4000000000000000000 ∧
    (run (construct 3 1 4000000000000000000 1793559479423672444)
      wrapped_history_ops).get_timeline (some 1)
      = [1793559479423672444, 5793559479423672444, -8653184594285879172] ∧
    (run (construct 3 1 4000000000000000000 1793559479423672444)
      wrapped_history_ops).get_last_time_elapse_atom_observed (some 1) 0 7
      = (true, 5793559479423672444) ∧
    (run (construct 3 1 4000000000000000000 1793559479423672444)
      wrapped_history_ops).get_last_time_elapse_atom_observed_unsorted (some 1) 0 7
      = (false, 7) := by
  decide

/-- C21, amended: for capacity `N ≥ 1` and a positive time resolution, in every reachable
state in which the 64-bit clock has not overflowed (the clock reading `now` at
construction is at least -2^63 and `now` plus `time_res` times the number of steps taken
is below 2^63), `get_timeline(e)` is strictly increasing, sorting it changes nothing, and
each of `get_oldest_time_elapse_atom_observed`, `get_last_time_elapse_atom_observed` and
`get_last_time_before_elapse_atom_observed` returns the same flag and result as the
same function with `tl.sort()` removed. -/
theorem history_sorts_are_redundant (N : Nat) (mr : Rat) (res : duration_c) (now : time_pt)
    (ops : List Op) (e : Handle) (d result : time_pt) (hN : 1 ≤ N) (hres : 0 < res)
    (hfit : clock_fits now res (count_steps ops)) :
    List.Pairwise (fun a b => a < b) ((run (construct N mr res now) ops).get_timeline e) ∧
    TimeOctomap.sort ((run (construct N mr res now) ops).get_timeline e)
      = (run (construct N mr res now) ops).get_timeline e ∧
    (run (construct N mr res now) ops).get_oldest_time_elapse_atom_observed e d result
      = (run (construct N mr res now) ops).get_oldest_time_elapse_atom_observed_unsorted
          e d result ∧
    (run (construct N mr res now) ops).get_last_time_elapse_atom_observed e d result
      = (run (construct N mr res now) ops).get_last_time_elapse_atom_observed_unsorted
          e d result ∧
    (run (construct N mr res now) ops).get_last_time_before_elapse_atom_observed e d result
      = (run (construct N mr res now) ops).get_last_time_before_elapse_atom_observed_unsorted
          e d result := by
  obtain ⟨hx, -⟩ := ExactInv.of_fits N mr res now ops hN hres hfit
  have hp := hx.timeline_pairwise hres e
  have hsort := sort_eq_self_of_increasing _ hp
  refine ⟨hp, hsort, ?_, ?_, ?_⟩
  · unfold TimeOctomap.get_oldest_time_elapse_atom_observed
      TimeOctomap.get_oldest_time_elapse_atom_observed_unsorted
    simp only [hsort]
  · unfold TimeOctomap.get_last_time_elapse_atom_observed
      TimeOctomap.get_last_time_elapse_atom_observed_unsorted
    simp only [hsort]
  · unfold TimeOctomap.get_last_time_before_elapse_atom_observed
      TimeOctomap.get_last_time_before_elapse_atom_observed_unsorted
    simp only [hsort]

/-- Witness for C21: capacity 2, resolution 5, clock at 100; after `history_ops` entity 1
is seen at times 105 and 110, and the query time is 105. -/
theorem history_sorts_are_redundant_witness :
    1 ≤ 2 ∧ (0 : Int) < 5 ∧ clock_fits 100 5 (count_steps history_ops) ∧
    (run (construct 2 1 5 100) history_ops).get_timeline (some 1) = [105, 110] ∧
    (run (construct 2 1 5 100) history_ops).get_oldest_time_elapse_atom_observed
        (some 1) 105 7
      = (run (construct 2 1 5 100) history_ops).get_oldest_time_elapse_atom_observed_unsorted
          (some 1) 105 7 ∧
    (run (construct 2 1 5 100) history_ops).get_last_time_before_elapse_atom_observed
        (some 1) 105 7
      = (run (construct 2 1 5 100)
          history_ops).get_last_time_before_elapse_atom_observed_unsorted (some 1) 105 7 :=
  ⟨by decide, by decide, by decide, by decide,
    (history_sorts_are_redundant 2 1 5 100 history_ops (some 1) 105 7
      (by decide) (by decide) (by decide)).2.2.1,
    (history_sorts_are_redundant 2 1 5 100 history_ops (some 1) 105 7
      (by decide) (by decide) (by decide)).2.2.2.2⟩

end opencog
